import Mathlib

/-!
Verification of vbindiff: the dual-buffer view model and the difference engine

A shallow embedding of `vbindiff.cc` (Visual Binary DIFF, 1995 version):
the classes `FileDisplay` and `Difference`, and the command handler
`handleCmd`.

Conventions of the embedding

* `Byte` (`unsigned char`) is `Fin 256`; `Command` (a `Byte` used as a bit
  set) is `Nat` with `&&&`.
* `int` and `streampos` values are `Int`.  Signed overflow is undefined in
  C++, so the model describes the executions in which `offset + step`
  stays inside the machine range.
* The fixed arrays `buffer[bufSize]` and `table[bufSize]` are lists; the
  objects are globals, so their storage starts zero-filled.
* The member pointers `Difference::file1/file2` always point at the two
  global views; `compute` receives the views as arguments.
* The windowing calls (`wm_*`) and `display` change no program state that
  the core reads, and are left out.
* The templates `min` and `max` of the source are `min` and `max` on `Int`.
* `while` loops whose trip count is not known in advance take a fuel
  argument and return `none` when it runs out.
-/

namespace VBinDiff

/-! ## Types and constants -/

/-- Type `Byte`: `typedef unsigned char Byte;` -/
abbrev Byte := Fin 256

/-- Type `Command`: `typedef Byte Command;` (used as a set of bits) -/
abbrev Command := Nat

def cmmMove : Command := 0x80
def cmmMoveSize : Command := 0x03
def cmmMoveForward : Command := 0x04
def cmmMoveTop : Command := 0x08
def cmmMoveBottom : Command := 0x10

def cmmMoveByte : Command := 0x00
def cmmMoveLine : Command := 0x01
def cmmMovePage : Command := 0x02
def cmmMoveAll : Command := 0x03

def cmmMoveBoth : Command := cmmMoveTop ||| cmmMoveBottom

def cmNothing : Command := 0
def cmNextDiff : Command := 1
def cmQuit : Command := 2

def numLines : Nat := 9
def lineWidth : Nat := 16
def bufSize : Nat := numLines * lineWidth
def maxPath : Nat := 260

/-- Table `const int steps[4] = {1, lineWidth, bufSize-lineWidth, 0};` -/
def steps : List Int := [1, lineWidth, (bufSize : Int) - lineWidth, 0]

/-! ## The input stream

`ifstream` comes from the iostream library of the compiler (`<fstream.h>`),
which is not part of the sources.  The model keeps what `FileDisplay`
observes of it: the bytes of the file the stream is open on, the get
position, the three state bits and the count of the last unformatted
read. -/

/-- The files that exist: a path either opens on a finite byte sequence or
cannot be opened. -/
abbrev FileSystem := List Char → Option (List Byte)

/-- Modelled from the spec: the byte-stream primitive of section 6
(`open(path)`, `seek(handle, offset)`, `read(handle, buffer, n) -> bytesRead`)
as the library class `ifstream` provides it; the class is declared in
`<fstream.h>`, outside the sources.  A read at or past the end of the file
returns 0 bytes and leaves the stream failed until `clear`. -/
structure ifstream where
  /-- bytes of the open file; `none` when no file is open -/
  contents : Option (List Byte)
  /-- get position -/
  pos : Nat
  eofbit : Bool
  failbit : Bool
  badbit : Bool
  /-- value returned by `gcount()` -/
  count : Nat
  deriving DecidableEq, Repr

namespace ifstream

/-- A default-constructed stream: not open, state good. -/
def new : ifstream :=
  { contents := none, pos := 0, eofbit := false, failbit := false, badbit := false, count := 0 }

/-- Call `good()`: no state bit is set. -/
def good (f : ifstream) : Bool := !f.eofbit && !f.failbit && !f.badbit

/-- Call `fail()`: `failbit` or `badbit` is set. -/
def fail (f : ifstream) : Bool := f.failbit || f.badbit

/-- Call `clear()`: resets the three state bits. -/
def clear (f : ifstream) : ifstream :=
  { f with eofbit := false, failbit := false, badbit := false }

/-- Call `gcount()`: the number of bytes the last `read` delivered. -/
def gcount (f : ifstream) : Int := f.count

/-- Call `close()`: closing a stream that is not open sets `failbit`. -/
def close (f : ifstream) : ifstream :=
  match f.contents with
  | none => { f with failbit := true }
  | some _ => { f with contents := none, pos := 0 }

/-- Call `open(name, ios::in|ios::bin|ios::nocreate)`: the state is cleared, and
`badbit` is set when the file cannot be opened. -/
def «open» (f : ifstream) (fs : FileSystem) (name : List Char) : ifstream :=
  match fs name with
  | some s => { f.clear with contents := some s, pos := 0 }
  | none => { f.clear with contents := none, pos := 0, badbit := true }

/-- Call `seekg(pos)`: repositions the file; seeking beyond the end of a file
is allowed.  A stream with no open file, or a negative position, makes the
seek fail, which sets `badbit`. -/
def seekg (f : ifstream) (p : Int) : ifstream :=
  match f.contents with
  | none => { f with badbit := true }
  | some _ => if p < 0 then { f with badbit := true } else { f with pos := p.toNat }

/-- Call `read(buffer, n)`: when the stream is not good, nothing is read and
`failbit` is set.  Otherwise the bytes available at the get position, at
most `n`, overwrite the front of `buffer` (the rest of the buffer keeps
what it held); a short read sets `eofbit` and `failbit`. -/
def read (f : ifstream) (buffer : List Byte) (n : Nat) : ifstream × List Byte :=
  if f.good then
    let data := ((f.contents.getD []).drop f.pos).take n
    let f1 := { f with pos := f.pos + data.length, count := data.length }
    let f2 := if data.length ≠ n then { f1 with eofbit := true, failbit := true } else f1
    (f2, data ++ buffer.drop data.length)
  else
    ({ f with failbit := true, count := 0 }, buffer)

end ifstream

/-! ## Class declarations -/

structure FileDisplay where
  bufContents : Int
  file : ifstream
  fileName : List Char
  offset : Int
  buffer : List Byte
  deriving DecidableEq, Repr

structure Difference where
  numDiffs : Int
  table : List Byte
  deriving DecidableEq, Repr

/-- The global variables `file1`, `file2` and `diffs`. -/
structure Globals where
  file1 : FileDisplay
  file2 : FileDisplay
  diffs : Difference
  deriving DecidableEq, Repr

/-- From `enum Boolean {False, True}`, stored in a `Byte`. -/
def Boolean.True : Byte := 1

/-! ## Class Difference -/

/-- The loop `for (; i < size; i++) body(i)` run for at most `fuel`
iterations; returns the final `i` with the final state. -/
def forLoop {σ : Type} (size : Int) (body : Nat → σ → σ) : Nat → Nat → σ → Nat × σ
  | 0, i, s => (i, s)
  | fuel + 1, i, s =>
    if (i : Int) < size then forLoop size body fuel (i + 1) (body i s) else (i, s)

/-- Body of the comparison loop:
`if (*(buf1++) != *(buf2++)) { table[i] = True; ++different; }`.
The two pointers advance once per iteration, so they read index `i`. -/
def compareBody (buf1 buf2 : List Byte) (i : Nat) (s : List Byte × Int) : List Byte × Int :=
  if buf1.getD i 0 ≠ buf2.getD i 0 then (s.1.set i Boolean.True, s.2 + 1) else s

/-- Body of the tail loop: `table[i] = True;` -/
def tailBody (i : Nat) (table : List Byte) : List Byte :=
  table.set i Boolean.True

/-- Method `int Difference::compute()`: the returned value and the object after
the call.  On the early `return -1` the member `numDiffs` is not
assigned. -/
def Difference.compute (self : Difference) (file1 file2 : FileDisplay) : Int × Difference :=
  let table : List Byte := List.replicate bufSize 0
  let different : Int := 0
  let size : Int := min file1.bufContents file2.bufContents
  let r := forLoop size (compareBody file1.buffer file2.buffer) size.toNat 0 (table, different)
  let i : Nat := r.1
  let table := r.2.1
  let different := r.2.2
  let size : Int := max file1.bufContents file2.bufContents
  if (i : Int) < size then
    let different := different + (size - i)
    let r2 := forLoop size tailBody (size - i).toNat i table
    (different, { self with numDiffs := different, table := r2.2 })
  else if size = 0 then
    (-1, { self with table := table })
  else
    (different, { self with numDiffs := different, table := table })

def Difference.getNumDiffs (self : Difference) : Int := self.numDiffs

/-! ## Class FileDisplay -/

/-- Constructor `FileDisplay::FileDisplay()`; the buffer is the zero-filled static
storage of the global object. -/
def FileDisplay.new : FileDisplay :=
  { bufContents := 0, file := ifstream.new, fileName := [], offset := 0,
    buffer := List.replicate bufSize 0 }

def FileDisplay.getBuffer (self : FileDisplay) : List Byte := self.buffer

/-- Method `void FileDisplay::move(int step)`. -/
def FileDisplay.move (self : FileDisplay) (step : Int) : FileDisplay :=
  let offset := self.offset + step
  let offset := if offset < 0 then 0 else offset
  let file := if self.file.fail then self.file.clear else self.file
  let file := file.seekg offset
  let r := file.read self.buffer bufSize
  { self with offset := offset, file := r.1, buffer := r.2, bufContents := r.1.gcount }

/-- Method `void FileDisplay::setFile(const char* aFileName)`; `strncpy` and the
terminator at `maxPath-1` keep the first `maxPath-1` characters. -/
def FileDisplay.setFile (self : FileDisplay) (fs : FileSystem) (aFileName : List Char) :
    FileDisplay :=
  let fileName := aFileName.take (maxPath - 1)
  let file := self.file.close
  let file := file.open fs fileName
  let offset : Int := 0
  let r := file.read self.buffer bufSize
  { self with fileName := fileName, offset := offset, file := r.1, buffer := r.2,
              bufContents := r.1.gcount }

/-! ## Main program -/

/-- The scan loop of `handleCmd`:
`do { file1.move(bufSize); file2.move(bufSize); } while (!diffs.compute());`
with at most `fuel` iterations. -/
def scanLoop : Nat → Globals → Option Globals
  | 0, _ => none
  | fuel + 1, g =>
    let g1 : Globals := { g with file1 := g.file1.move bufSize, file2 := g.file2.move bufSize }
    let r : Int × Difference := g1.diffs.compute g1.file1 g1.file2
    let g2 : Globals := { g1 with diffs := r.2 }
    if r.1 = 0 then scanLoop fuel g2 else some g2

/-- The boundary-correction loop of `handleCmd`:
`while (diffs.compute() < 0) { file1.move(-steps[cmmMovePage]); file2.move(-steps[cmmMovePage]); }`
with at most `fuel` evaluations of the loop condition. -/
def correctLoop : Nat → Globals → Option Globals
  | 0, _ => none
  | fuel + 1, g =>
    let r : Int × Difference := g.diffs.compute g.file1 g.file2
    let g1 : Globals := { g with diffs := r.2 }
    if r.1 < 0 then
      correctLoop fuel
        { g1 with file1 := g1.file1.move (-(steps.getD cmmMovePage 0)),
                  file2 := g1.file2.move (-(steps.getD cmmMovePage 0)) }
    else some g1

/-- Function `void handleCmd(Command cmd)`, up to the two `display` calls.  Each of
its loops may run `fuel` times; `none` means a loop did not finish within
that bound. -/
def handleCmd (fuel : Nat) (cmd : Command) (g : Globals) : Option Globals :=
  let moved : Option Globals :=
    if cmd &&& cmmMove ≠ 0 then
      let step : Int := steps.getD (cmd &&& cmmMoveSize) 0
      let step : Int := if cmd &&& cmmMoveForward = 0 then step * -1 else step
      let g1 : Globals :=
        if cmd &&& cmmMoveTop ≠ 0 then { g with file1 := g.file1.move step } else g
      let g2 : Globals :=
        if cmd &&& cmmMoveBottom ≠ 0 then { g1 with file2 := g1.file2.move step } else g1
      some g2
    else if cmd = cmNextDiff then scanLoop fuel g
    else some g
  moved.bind (correctLoop fuel)

/-! ## Vocabulary of the properties -/

/-- The number of positions below `n` at which the two buffers hold
different bytes. -/
def numDiffering (A B : FileDisplay) (n : Nat) : Nat :=
  (List.range n).countP (fun i => decide (A.buffer.getD i 0 ≠ B.buffer.getD i 0))

/-- The test `if (diffs->line[i][j])` of `display`: position `i` of the
table is marked. -/
def Difference.marked (self : Difference) (i : Nat) : Prop := self.table.getD i 0 ≠ 0

instance (self : Difference) (i : Nat) : Decidable (self.marked i) := by
  unfold Difference.marked
  infer_instance

/-- A view whose buffer starts with `bytes` (zero-filled up to `bufSize`)
and whose valid length is `valid`; used to state concrete scenarios. -/
def viewOf (valid : Int) (bytes : List Byte) : FileDisplay :=
  { FileDisplay.new with
    bufContents := valid
    buffer := bytes ++ List.replicate (bufSize - bytes.length) 0 }

/-- A finite sequence of `move` calls on one view. -/
def FileDisplay.moves (self : FileDisplay) (deltas : List Int) : FileDisplay :=
  deltas.foldl FileDisplay.move self

/-- The view as `main` sets it up: constructed, then `setFile`. -/
def FileDisplay.opened (fs : FileSystem) (aFileName : List Char) : FileDisplay :=
  FileDisplay.new.setFile fs aFileName

/-- The bytes a stream holds in the window of `bufSize` bytes at `offset`. -/
def window (s : List Byte) (offset : Nat) : List Byte := (s.drop offset).take bufSize

/-- The view is positioned on an open stream holding `s`: the state that
`setFile` on a path that opens establishes and that `move` preserves. -/
structure FileDisplay.OnStream (d : FileDisplay) (s : List Byte) : Prop where
  contents : d.file.contents = some s
  offset_nonneg : 0 ≤ d.offset
  valid : d.bufContents = ((window s d.offset.toNat).length : Int)
  front : d.buffer = window s d.offset.toNat ++ d.buffer.drop (window s d.offset.toNat).length
  buffer_length : d.buffer.length = bufSize
  pos : d.file.pos = d.offset.toNat + (window s d.offset.toNat).length
  count : d.file.count = (window s d.offset.toNat).length
  eofbit : d.file.eofbit = decide ((window s d.offset.toNat).length ≠ bufSize)
  failbit : d.file.failbit = decide ((window s d.offset.toNat).length ≠ bufSize)
  badbit : d.file.badbit = false

/-- The view has no open stream: the state that `setFile` on a path that
cannot be opened establishes and that `move` preserves. -/
structure FileDisplay.NoStream (d : FileDisplay) : Prop where
  contents : d.file.contents = none
  offset_nonneg : 0 ≤ d.offset
  valid : d.bufContents = 0
  count : d.file.count = 0
  eofbit : d.file.eofbit = false
  failbit : d.file.failbit = true
  badbit : d.file.badbit = true

/-- A file system in which every path opens on the bytes `s`. -/
def oneFile (s : List Byte) : FileSystem := fun _ => some s

/-- A file system in which no path can be opened. -/
def noFile : FileSystem := fun _ => none

/-- The value `compute` returns for two views that hold exactly the window
of `s1` at offset `o1` and the window of `s2` at offset `o2`. -/
def windowDiff (s1 s2 : List Byte) (o1 o2 : Nat) : Int :=
  (Difference.compute ⟨0, []⟩
    (viewOf (window s1 o1).length (window s1 o1))
    (viewOf (window s2 o2).length (window s2 o2))).1

/-- A state of the program: both views set up by `setFile` and then moved. -/
def stateAfter (fs : FileSystem) (name1 name2 : List Char) (deltas1 deltas2 : List Int)
    (diffs : Difference) : Globals :=
  { file1 := (FileDisplay.opened fs name1).moves deltas1
    file2 := (FileDisplay.opened fs name2).moves deltas2
    diffs := diffs }

/-! ## Main program: `main` and its command loop -/

/-- The global objects before `main` runs: two constructed views and a
`Difference` object in zero-filled static storage. -/
def Globals.initial : Globals :=
  { file1 := FileDisplay.new, file2 := FileDisplay.new,
    diffs := { numDiffs := 0, table := List.replicate bufSize 0 } }

/-- Function `Boolean initialize()` of the source: it creates the windows and
calls `init` on both views without a file name, so no file is opened.  The
window manager is outside the sources; `windows` tells whether its calls
succeed. -/
def initializeWindows (windows : Bool) (g : Globals) : Bool × Globals := (windows, g)

/-- The state in which `main` enters its command loop:
`file1.setFile(argv[1]); file2.setFile(argv[2]); diffs.compute();`. -/
def startState (fs : FileSystem) (arg1 arg2 : List Char) : Globals :=
  let g : Globals := Globals.initial
  let g1 : Globals := { g with file1 := g.file1.setFile fs arg1 }
  let g2 : Globals := { g1 with file2 := g1.file2.setFile fs arg2 }
  { g2 with diffs := (g2.diffs.compute g2.file1 g2.file2).2 }

/-- The loop `while ((cmd = getCommand()) != cmQuit) handleCmd(cmd);` on the
sequence of commands that `getCommand` delivers.  The result is the list of
commands passed to `handleCmd` and the final state; `none` means that the
loop does not end (a `handleCmd` that does not return within `fuel`, or no
quit command). -/
def commandLoop (fuel : Nat) : List Command → Globals → Option (List Command × Globals)
  | [], _ => none
  | cmd :: rest, g =>
    if cmd = cmQuit then some ([], g)
    else
      match handleCmd fuel cmd g with
      | none => none
      | some g1 => (commandLoop fuel rest g1).map (fun r => (cmd :: r.1, r.2))

/-- What `main` leaves behind when it returns. -/
structure Exit where
  /-- the value `main` returns -/
  status : Int
  /-- the lines written to `stderr` -/
  err : List String
  /-- the commands that were passed to `handleCmd` -/
  handled : List Command
  globals : Globals
  deriving DecidableEq, Repr

/-- Function `int main(int argc, char* argv[])`; `argv` includes the program
name, so `argc` is its length. -/
def main (fuel : Nat) (fs : FileSystem) (windows : Bool) (argv : List (List Char))
    (keys : List Command) : Option Exit :=
  if argv.length ≠ 3 then
    some { status := 1, err := ["Usage: vbindiff file1 file2\n"], handled := [],
           globals := Globals.initial }
  else if !(initializeWindows windows Globals.initial).1 then
    some { status := 1, err := ["Unable to initialize windows\n"], handled := [],
           globals := Globals.initial }
  else
    (commandLoop fuel keys (startState fs (argv.getD 1 []) (argv.getD 2 []))).map
      (fun r => { status := 0, err := [], handled := r.1, globals := r.2 })

/-! ## Vocabulary of the properties, continued -/

/-- A file system with one file: `name` opens on `s`, no other path opens. -/
def fileAt (name : List Char) (s : List Byte) : FileSystem :=
  fun n => if n = name then some s else none

/-- A file system in which `name1` opens on `s1` and every other path opens
on `s2`. -/
def twoFiles (name1 : List Char) (s1 s2 : List Byte) : FileSystem :=
  fun n => if n = name1 then some s1 else some s2

/-- The value of the local variable `step` of `handleCmd` for a move
command: `steps[cmd & cmmMoveSize]`, negated when the forward bit is
clear. -/
def moveStep (cmd : Command) : Int :=
  let step : Int := steps.getD (cmd &&& cmmMoveSize) 0
  if cmd &&& cmmMoveForward = 0 then step * -1 else step

/-- The two conditional `move` calls of `handleCmd` for a move command. -/
def applyMove (cmd : Command) (g : Globals) : Globals :=
  let g1 : Globals :=
    if cmd &&& cmmMoveTop ≠ 0 then { g with file1 := g.file1.move (moveStep cmd) } else g
  if cmd &&& cmmMoveBottom ≠ 0 then { g1 with file2 := g1.file2.move (moveStep cmd) } else g1

/-- The state `main` has reached when `handleCmd` has returned for each of
the commands `cmds` in turn (up to the first quit command among them). -/
def reachedBy (fuel : Nat) (fs : FileSystem) (arg1 arg2 : List Char) (cmds : List Command) :
    Option Globals :=
  (commandLoop fuel (cmds ++ [cmQuit]) (startState fs arg1 arg2)).map (fun r => r.2)

/-- A command of synchronized navigation: a move command that targets both
views, or `cmNextDiff`. -/
def synchronized (cmd : Command) : Prop :=
  (cmd &&& cmmMove ≠ 0 ∧ cmd &&& cmmMoveTop ≠ 0 ∧ cmd &&& cmmMoveBottom ≠ 0) ∨ cmd = cmNextDiff

instance (cmd : Command) : Decidable (synchronized cmd) := by
  unfold synchronized
  infer_instance

/-- The number of marked positions of the table: the entries that `display`
treats as true. -/
def Difference.numMarked (self : Difference) : Nat :=
  self.table.countP (fun b => decide (b ≠ 0))

/-! ## The difference engine with checked indexing

The same code as `compute`, with every array access made through an
`Option`-returning operation, so that an index outside an array ends the
computation with `none`.  The loop counter `i` starts at 0 and only grows,
so it is a natural number and the lower bound needs no check. -/

/-- A checked read `buf[i]`: `none` when `i` is not an index of `buf`. -/
def readAt (buf : List Byte) (i : Nat) : Option Byte := buf[i]?

/-- A checked write `table[i] = v`: `none` when `i` is not an index of
`table`. -/
def writeAt (table : List Byte) (i : Nat) (v : Byte) : Option (List Byte) :=
  if i < table.length then some (table.set i v) else none

/-- The loop `for (; i < size; i++) body(i)` with a body that can fail. -/
def forLoopChecked {σ : Type} (size : Int) (body : Nat → σ → Option σ) :
    Nat → Nat → σ → Option (Nat × σ)
  | 0, i, s => some (i, s)
  | fuel + 1, i, s =>
    if (i : Int) < size then (body i s).bind (fun s1 => forLoopChecked size body fuel (i + 1) s1)
    else some (i, s)

/-- Body of the comparison loop with checked accesses: both buffers are read
at `i`, and the table is written at `i` when the bytes differ. -/
def compareBodyChecked (buf1 buf2 : List Byte) (i : Nat) (s : List Byte × Int) :
    Option (List Byte × Int) :=
  match readAt buf1 i, readAt buf2 i with
  | some a, some b =>
    if a ≠ b then (writeAt s.1 i Boolean.True).map (fun t => (t, s.2 + 1)) else some s
  | _, _ => none

/-- Body of the tail loop with a checked write. -/
def tailBodyChecked (i : Nat) (table : List Byte) : Option (List Byte) :=
  writeAt table i Boolean.True

/-- Method `int Difference::compute()` with checked accesses to `buffer` and
`table`. -/
def Difference.computeChecked (self : Difference) (file1 file2 : FileDisplay) :
    Option (Int × Difference) :=
  let table : List Byte := List.replicate bufSize 0
  let different : Int := 0
  let size : Int := min file1.bufContents file2.bufContents
  (forLoopChecked size (compareBodyChecked file1.buffer file2.buffer) size.toNat 0
      (table, different)).bind fun r =>
    let i : Nat := r.1
    let table := r.2.1
    let different := r.2.2
    let size : Int := max file1.bufContents file2.bufContents
    if (i : Int) < size then
      let different := different + (size - i)
      (forLoopChecked size tailBodyChecked (size - i).toNat i table).map fun r2 =>
        (different, { self with numDiffs := different, table := r2.2 })
    else if size = 0 then
      some (-1, { self with table := table })
    else
      some (different, { self with numDiffs := different, table := table })

set_option maxRecDepth 8000

/-! ## The loops of `compute` -/

/-- The value of `i` when `forLoop` ends, given enough fuel. -/
theorem forLoop_fst {σ : Type} (size : Int) (body : Nat → σ → σ) :
    ∀ (fuel i : Nat) (s : σ), size ≤ (i : Int) + fuel →
      (forLoop size body fuel i s).1 = max i size.toNat := by
  intro fuel
  induction fuel with
  | zero => intro i s h; simp [forLoop]; omega
  | succ n ih =>
    intro i s h
    simp only [forLoop]
    split
    · rw [ih (i + 1) _ (by push_cast; omega)]; omega
    · simp; omega

/-- With the fuel `compute` passes, `forLoop` ends because its condition
`i < size` has become false, not because the fuel ran out. -/
theorem forLoop_exit {σ : Type} (size : Int) (body : Nat → σ → σ) (fuel i : Nat) (s : σ)
    (h : size ≤ (i : Int) + fuel) :
    ¬ ((forLoop size body fuel i s).1 : Int) < size := by
  rw [forLoop_fst size body fuel i s h]; omega

theorem compare_count (b1 b2 : List Byte) (size : Int) :
    ∀ (fuel i : Nat) (t : List Byte) (c : Int), size ≤ (i : Int) + fuel →
      (forLoop size (compareBody b1 b2) fuel i (t, c)).2.2
        = c + ((List.range' i (size.toNat - i)).countP
                (fun j => decide (b1.getD j 0 ≠ b2.getD j 0)) : Nat) := by
  intro fuel
  induction fuel with
  | zero =>
    intro i t c h
    have : size.toNat - i = 0 := by omega
    simp [forLoop, this]
  | succ n ih =>
    intro i t c h
    simp only [forLoop]
    split
    · rename_i hlt
      have e : size.toNat - i = (size.toNat - (i + 1)) + 1 := by omega
      rw [e, List.range'_succ, List.countP_cons]
      by_cases hne : b1.getD i 0 ≠ b2.getD i 0
      · have hb : compareBody b1 b2 i (t, c) = (t.set i Boolean.True, c + 1) := by
          rw [compareBody, if_pos hne]
        rw [hb, ih (i + 1) _ _ (by push_cast; omega), decide_eq_true hne]
        simp only [if_true]; push_cast; ring
      · have hb : compareBody b1 b2 i (t, c) = (t, c) := by
          rw [compareBody, if_neg hne]
        rw [hb, ih (i + 1) _ _ (by push_cast; omega), decide_eq_false hne]
        simp
    · have : size.toNat - i = 0 := by omega
      simp [this]


theorem compare_length (b1 b2 : List Byte) (size : Int) :
    ∀ (fuel i : Nat) (t : List Byte) (c : Int),
      (forLoop size (compareBody b1 b2) fuel i (t, c)).2.1.length = t.length := by
  intro fuel
  induction fuel with
  | zero => intro i t c; simp [forLoop]
  | succ n ih =>
    intro i t c
    simp only [forLoop]
    split
    · by_cases hne : b1.getD i 0 ≠ b2.getD i 0
      · have hb : compareBody b1 b2 i (t, c) = (t.set i Boolean.True, c + 1) := by
          rw [compareBody, if_pos hne]
        rw [hb, ih]; simp
      · have hb : compareBody b1 b2 i (t, c) = (t, c) := by
          rw [compareBody, if_neg hne]
        rw [hb, ih]
    · rfl

theorem compare_getD (b1 b2 : List Byte) (size : Int) :
    ∀ (fuel i : Nat) (t : List Byte) (c : Int) (k : Nat), size ≤ (i : Int) + fuel →
      k < t.length →
      (forLoop size (compareBody b1 b2) fuel i (t, c)).2.1.getD k 0
        = if i ≤ k ∧ (k : Int) < size ∧ b1.getD k 0 ≠ b2.getD k 0 then Boolean.True
          else t.getD k 0 := by
  intro fuel
  induction fuel with
  | zero =>
    intro i t c k h hk
    have : ¬ (i ≤ k ∧ (k : Int) < size) := by omega
    simp only [forLoop]
    rw [if_neg (fun hh => this ⟨hh.1, hh.2.1⟩)]
  | succ n ih =>
    intro i t c k h hk
    simp only [forLoop]
    split
    · by_cases hne : b1.getD i 0 ≠ b2.getD i 0
      · have hb : compareBody b1 b2 i (t, c) = (t.set i Boolean.True, c + 1) := by
          rw [compareBody, if_pos hne]
        rw [hb, ih (i + 1) _ _ k (by push_cast; omega) (by simpa using hk)]
        by_cases hik : i = k
        · subst hik
          have h1 : ¬ (i + 1 ≤ i ∧ (i : Int) < size ∧ b1.getD i 0 ≠ b2.getD i 0) := by
            intro hh; omega
          have h2 : (i ≤ i ∧ (i : Int) < size ∧ b1.getD i 0 ≠ b2.getD i 0) :=
            ⟨le_refl _, by assumption, hne⟩
          rw [if_neg h1, if_pos h2]
          simp [List.getD, hk]
        · have e1 : (t.set i Boolean.True).getD k 0 = t.getD k 0 := by
            simp [List.getD, List.getElem?_set_ne hik]
          rw [e1]
          by_cases hc : (k : Int) < size ∧ b1.getD k 0 ≠ b2.getD k 0
          · by_cases hle : i ≤ k
            · have : i + 1 ≤ k := by omega
              simp [hc, hle, this]
            · have : ¬ (i + 1 ≤ k) := by omega
              simp [hle, this]
          · have h1 : ¬ (i + 1 ≤ k ∧ (k : Int) < size ∧ b1.getD k 0 ≠ b2.getD k 0) :=
              fun hh => hc hh.2
            have h2 : ¬ (i ≤ k ∧ (k : Int) < size ∧ b1.getD k 0 ≠ b2.getD k 0) :=
              fun hh => hc hh.2
            rw [if_neg h1, if_neg h2]
      · have hb : compareBody b1 b2 i (t, c) = (t, c) := by
          rw [compareBody, if_neg hne]
        rw [hb, ih (i + 1) _ _ k (by push_cast; omega) hk]
        by_cases hik : i = k
        · subst hik
          have h1 : ¬ (i + 1 ≤ i ∧ (i : Int) < size ∧ b1.getD i 0 ≠ b2.getD i 0) := by
            intro hh; omega
          have h2 : ¬ (i ≤ i ∧ (i : Int) < size ∧ b1.getD i 0 ≠ b2.getD i 0) :=
            fun hh => hne hh.2.2
          rw [if_neg h1, if_neg h2]
        · by_cases hle : i ≤ k
          · have : i + 1 ≤ k := by omega
            simp [hle, this]
          · have : ¬ (i + 1 ≤ k) := by omega
            simp [hle, this]
    · have : ¬ (i ≤ k ∧ (k : Int) < size) := by omega
      rw [if_neg (fun hh => this ⟨hh.1, hh.2.1⟩)]

theorem tail_getD (size : Int) :
    ∀ (fuel i : Nat) (t : List Byte) (k : Nat), size ≤ (i : Int) + fuel →
      k < t.length →
      (forLoop size tailBody fuel i t).2.getD k 0
        = if i ≤ k ∧ (k : Int) < size then Boolean.True else t.getD k 0 := by
  intro fuel
  induction fuel with
  | zero =>
    intro i t k h hk
    have : ¬ (i ≤ k ∧ (k : Int) < size) := by omega
    simp only [forLoop]
    rw [if_neg this]
  | succ n ih =>
    intro i t k h hk
    simp only [forLoop]
    split
    · rw [ih (i + 1) _ k (by push_cast; omega) (by simpa [tailBody] using hk)]
      by_cases hik : i = k
      · subst hik
        have h1 : ¬ (i + 1 ≤ i ∧ (i : Int) < size) := by
          intro hh; omega
        have h2 : (i ≤ i ∧ (i : Int) < size) := ⟨le_refl _, by assumption⟩
        rw [if_neg h1, if_pos h2]
        simp [tailBody, List.getD, hk]
      · have e1 : (tailBody i t).getD k 0 = t.getD k 0 := by
          simp [tailBody, List.getD, List.getElem?_set_ne hik]
        rw [e1]
        by_cases hle : i ≤ k
        · have : i + 1 ≤ k := by omega
          simp [hle, this]
        · have : ¬ (i + 1 ≤ k) := by omega
          simp [hle, this]
    · have : ¬ (i ≤ k ∧ (k : Int) < size) := by omega
      rw [if_neg this]


theorem compute_fst (self : Difference) (A B : FileDisplay)
    (hA : 0 ≤ A.bufContents) (hB : 0 ≤ B.bufContents) :
    (self.compute A B).1 =
      if A.bufContents = 0 ∧ B.bufContents = 0 then -1
      else (numDiffering A B (min A.bufContents B.bufContents).toNat : Int)
            + |A.bufContents - B.bufContents| := by
  have hi := forLoop_fst (min A.bufContents B.bufContents)
    (compareBody A.buffer B.buffer) (min A.bufContents B.bufContents).toNat 0
    (List.replicate bufSize 0, 0) (by omega)
  have hc := compare_count A.buffer B.buffer (min A.bufContents B.bufContents)
    (min A.bufContents B.bufContents).toNat 0 (List.replicate bufSize 0) 0 (by omega)
  rw [Nat.sub_zero, ← List.range_eq_range', zero_add] at hc
  have habs : |A.bufContents - B.bufContents|
      = max A.bufContents B.bufContents - min A.bufContents B.bufContents := by
    rcases le_total A.bufContents B.bufContents with h | h
    · rw [max_eq_right h, min_eq_left h, abs_sub_comm, abs_of_nonneg (by omega)]
    · rw [max_eq_left h, min_eq_right h, abs_of_nonneg (by omega)]
  simp only [Difference.compute]
  rw [hi, hc]
  unfold numDiffering
  split
  · rename_i h1
    have : ¬ (A.bufContents = 0 ∧ B.bufContents = 0) := by omega
    rw [if_neg this, habs]
    simp only []
    omega
  · rename_i h1
    split
    · rename_i h2
      have : A.bufContents = 0 ∧ B.bufContents = 0 := by omega
      rw [if_pos this]
    · rename_i h2
      have : ¬ (A.bufContents = 0 ∧ B.bufContents = 0) := by omega
      rw [if_neg this, habs]
      simp only []
      omega


theorem replicate_getD_zero (n k : Nat) : (List.replicate n (0 : Byte)).getD k 0 = 0 := by
  by_cases h : k < n
  · simp [List.getD, List.getElem?_replicate, h]
  · simp [List.getD, List.getElem?_replicate, h]

theorem compute_table_getD (self : Difference) (A B : FileDisplay)
    (hA : 0 ≤ A.bufContents) (hB : 0 ≤ B.bufContents) (k : Nat) (hk : k < bufSize) :
    (self.compute A B).2.table.getD k 0 =
      if ((k : Int) < min A.bufContents B.bufContents ∧ A.buffer.getD k 0 ≠ B.buffer.getD k 0)
          ∨ (min A.bufContents B.bufContents ≤ (k : Int)
              ∧ (k : Int) < max A.bufContents B.bufContents)
      then Boolean.True else 0 := by
  have hi := forLoop_fst (min A.bufContents B.bufContents)
    (compareBody A.buffer B.buffer) (min A.bufContents B.bufContents).toNat 0
    (List.replicate bufSize 0, 0) (by omega)
  have hl := compare_length A.buffer B.buffer (min A.bufContents B.bufContents)
    (min A.bufContents B.bufContents).toNat 0 (List.replicate bufSize 0) 0
  have hg := compare_getD A.buffer B.buffer (min A.bufContents B.bufContents)
    (min A.bufContents B.bufContents).toNat 0 (List.replicate bufSize 0) 0 k (by omega)
    (by simpa using hk)
  rw [replicate_getD_zero] at hg
  rw [List.length_replicate] at hl
  have hmm : min A.bufContents B.bufContents ≤ max A.bufContents B.bufContents :=
    le_trans (min_le_left _ _) (le_max_left _ _)
  simp only [Difference.compute]
  rw [hi]
  split
  · rename_i h1
    simp only []
    rw [tail_getD _ _ _ _ k (by omega) (by rw [hl]; exact hk), hg]
    by_cases c1 : (k : Int) < min A.bufContents B.bufContents
    · have n2 : ¬ (max 0 (min A.bufContents B.bufContents).toNat ≤ k
          ∧ (k : Int) < max A.bufContents B.bufContents) := by omega
      rw [if_neg n2]
      by_cases c2 : A.buffer.getD k 0 ≠ B.buffer.getD k 0
      · rw [if_pos ⟨Nat.zero_le _, c1, c2⟩, if_pos (Or.inl ⟨c1, c2⟩)]
      · rw [if_neg (fun hh => c2 hh.2.2), if_neg]
        rintro (hh | hh)
        · exact c2 hh.2
        · omega
    · by_cases c3 : (k : Int) < max A.bufContents B.bufContents
      · rw [if_pos ⟨by omega, c3⟩, if_pos (Or.inr ⟨by omega, c3⟩)]
      · rw [if_neg (fun hh => c3 hh.2), if_neg (fun hh => c1 hh.2.1), if_neg]
        rintro (hh | hh)
        · exact c1 hh.1
        · exact c3 hh.2
  · rename_i h1
    have hEq : max A.bufContents B.bufContents = min A.bufContents B.bufContents := by omega
    have key : (forLoop (min A.bufContents B.bufContents) (compareBody A.buffer B.buffer)
        (min A.bufContents B.bufContents).toNat 0 (List.replicate bufSize 0, 0)).2.1.getD k 0
        = if ((k : Int) < min A.bufContents B.bufContents
                ∧ A.buffer.getD k 0 ≠ B.buffer.getD k 0)
              ∨ (min A.bufContents B.bufContents ≤ (k : Int)
                  ∧ (k : Int) < max A.bufContents B.bufContents)
          then Boolean.True else 0 := by
      rw [hg]
      by_cases c : (k : Int) < min A.bufContents B.bufContents
          ∧ A.buffer.getD k 0 ≠ B.buffer.getD k 0
      · rw [if_pos ⟨Nat.zero_le _, c⟩, if_pos (Or.inl c)]
      · rw [if_neg (fun hh => c hh.2), if_neg]
        rintro (hh | hh)
        · exact c hh
        · omega
    split
    · exact key
    · exact key

/-! ## The difference engine: return value and mask -/

/-- C1, as stated, fails: for two views of valid length 0 the count of
differing positions plus the length difference is 0, and `compute`
returns -1. -/
theorem compute_count_fails_on_empty_views :
    ¬ ∀ (self : Difference) (A B : FileDisplay),
        0 ≤ A.bufContents → A.bufContents ≤ bufSize →
        0 ≤ B.bufContents → B.bufContents ≤ bufSize →
        (self.compute A B).1
          = (numDiffering A B (min A.bufContents B.bufContents).toNat : Int)
            + |A.bufContents - B.bufContents| := by
  intro h
  have h0 := h ⟨0, []⟩ FileDisplay.new FileDisplay.new
    (by decide) (by decide) (by decide) (by decide)
  revert h0
  decide

/-- C1, amended: for views with valid lengths between 0 and `bufSize`, not
both 0, `compute` returns the number of positions below the smaller valid
length at which the buffers differ, plus the absolute difference of the
valid lengths. -/
theorem compute_count (self : Difference) (A B : FileDisplay)
    (hA0 : 0 ≤ A.bufContents) (_hA1 : A.bufContents ≤ bufSize)
    (hB0 : 0 ≤ B.bufContents) (_hB1 : B.bufContents ≤ bufSize)
    (hne : ¬ (A.bufContents = 0 ∧ B.bufContents = 0)) :
    (self.compute A B).1
      = (numDiffering A B (min A.bufContents B.bufContents).toNat : Int)
        + |A.bufContents - B.bufContents| := by
  rw [compute_fst self A B hA0 hB0, if_neg hne]

/-- Witness for C1: a view of valid length 5 against a view of valid length
10 whose first 5 bytes are the same gives 5. -/
theorem compute_count_witness :
    (Difference.compute ⟨0, []⟩
        (viewOf 5 [1, 2, 3, 4, 5]) (viewOf 10 [1, 2, 3, 4, 5, 6, 7, 8, 9, 10])).1 = 5 :=
  (compute_count ⟨0, []⟩
      (viewOf 5 [1, 2, 3, 4, 5]) (viewOf 10 [1, 2, 3, 4, 5, 6, 7, 8, 9, 10])
      (by decide) (by decide) (by decide) (by decide) (by decide)).trans (by decide)

/-- C2: for views with non-negative valid lengths, `compute` returns -1
exactly when both valid lengths are 0 (so two empty views never give 0),
and otherwise a value that is at least 0. -/
theorem compute_sentinel_iff (self : Difference) (A B : FileDisplay)
    (hA : 0 ≤ A.bufContents) (hB : 0 ≤ B.bufContents) :
    ((self.compute A B).1 = -1 ↔ A.bufContents = 0 ∧ B.bufContents = 0)
      ∧ (A.bufContents = 0 ∧ B.bufContents = 0 → (self.compute A B).1 ≠ 0)
      ∧ (¬ (A.bufContents = 0 ∧ B.bufContents = 0) → 0 ≤ (self.compute A B).1) := by
  rw [compute_fst self A B hA hB]
  by_cases h : A.bufContents = 0 ∧ B.bufContents = 0
  · rw [if_pos h]
    exact ⟨⟨fun _ => h, fun _ => rfl⟩, fun _ => by decide, fun hn => absurd h hn⟩
  · rw [if_neg h]
    have h1 : 0 ≤ |A.bufContents - B.bufContents| := abs_nonneg _
    refine ⟨⟨fun he => ?_, fun hh => absurd hh h⟩, fun hh => absurd hh h, fun _ => by omega⟩
    omega

/-- Witness for C2: two freshly constructed views (valid length 0 each)
give the sentinel, and a view of valid length 5 against one of valid
length 10 gives a value that is at least 0. -/
theorem compute_sentinel_iff_witness :
    (Difference.compute ⟨0, []⟩ FileDisplay.new FileDisplay.new).1 = -1
      ∧ 0 ≤ (Difference.compute ⟨0, []⟩
              (viewOf 5 [1, 2, 3, 4, 5]) (viewOf 10 [1, 2, 3, 4, 5, 6, 7, 8, 9, 10])).1 :=
  ⟨(compute_sentinel_iff ⟨0, []⟩ FileDisplay.new FileDisplay.new (by decide) (by decide)).1.mpr
      ⟨rfl, rfl⟩,
   (compute_sentinel_iff ⟨0, []⟩
      (viewOf 5 [1, 2, 3, 4, 5]) (viewOf 10 [1, 2, 3, 4, 5, 6, 7, 8, 9, 10])
      (by decide) (by decide)).2.2 (by decide)⟩

/-- C3: after `compute` on views with valid lengths between 0 and
`bufSize`, a position `i < bufSize` of the table is marked exactly when
the buffers differ at `i` below the smaller valid length, or `i` lies
between the smaller and the larger valid length; positions at or beyond
the larger valid length are clear. -/
theorem compute_mask (self : Difference) (A B : FileDisplay)
    (hA0 : 0 ≤ A.bufContents) (_hA1 : A.bufContents ≤ bufSize)
    (hB0 : 0 ≤ B.bufContents) (_hB1 : B.bufContents ≤ bufSize)
    (i : Nat) (hi : i < bufSize) :
    ((self.compute A B).2.marked i ↔
        ((i : Int) < min A.bufContents B.bufContents
            ∧ A.buffer.getD i 0 ≠ B.buffer.getD i 0)
        ∨ (min A.bufContents B.bufContents ≤ (i : Int)
            ∧ (i : Int) < max A.bufContents B.bufContents))
      ∧ (max A.bufContents B.bufContents ≤ (i : Int) → ¬ (self.compute A B).2.marked i) := by
  have key : (self.compute A B).2.marked i ↔
        ((i : Int) < min A.bufContents B.bufContents
            ∧ A.buffer.getD i 0 ≠ B.buffer.getD i 0)
        ∨ (min A.bufContents B.bufContents ≤ (i : Int)
            ∧ (i : Int) < max A.bufContents B.bufContents) := by
    unfold Difference.marked
    rw [compute_table_getD self A B hA0 hB0 i hi]
    split
    · rename_i h
      exact ⟨fun _ => h, fun _ => by decide⟩
    · rename_i h
      exact ⟨fun hh => absurd rfl hh, fun hh => absurd hh h⟩
  refine ⟨key, fun hmax hm => ?_⟩
  rcases key.mp hm with hh | hh
  · have := min_le_max (a := A.bufContents) (b := B.bufContents)
    omega
  · omega

/-- Witness for C3: ten zero bytes against ten 0xFF bytes; position 3 is
marked. -/
theorem compute_mask_witness :
    (Difference.compute ⟨0, []⟩
        (viewOf 10 []) (viewOf 10 (List.replicate 10 255))).2.marked 3 :=
  ((compute_mask ⟨0, []⟩
      (viewOf 10 []) (viewOf 10 (List.replicate 10 255))
      (by decide) (by decide) (by decide) (by decide) 3 (by decide)).1).mpr
    (Or.inl ⟨by decide, by decide⟩)

/-! ## The view: `setFile` and `move` -/

theorem window_length (s : List Byte) (o : Nat) :
    (window s o).length = min bufSize (s.length - o) := by
  simp [window]

theorem window_length_le (s : List Byte) (o : Nat) : (window s o).length ≤ bufSize := by
  rw [window_length]; exact min_le_left _ _

/-- The stream just before the `read` of `move`: cleared if it had failed,
then positioned. -/
theorem seekg_after_clear (f : ifstream) (s : List Byte) (o : Int) (ho : 0 ≤ o)
    (hc : f.contents = some s) (he : f.eofbit = true → f.fail = true) :
    (if f.fail then f.clear else f).seekg o =
      { contents := some s, pos := o.toNat, eofbit := false, failbit := false,
        badbit := false, count := f.count } := by
  obtain ⟨c, p, e, fl, bd, cnt⟩ := f
  simp only at hc
  subst hc
  have hn : ¬ o < 0 := by omega
  cases e <;> cases fl <;> cases bd <;>
    simp_all [ifstream.fail, ifstream.clear, ifstream.seekg]

/-- A `read` of `bufSize` bytes on a good stream open on `s`. -/
theorem read_good (s : List Byte) (p cnt : Nat) (buffer : List Byte) :
    ifstream.read { contents := some s, pos := p, eofbit := false, failbit := false,
                    badbit := false, count := cnt } buffer bufSize =
      ({ contents := some s, pos := p + (window s p).length,
         eofbit := decide ((window s p).length ≠ bufSize),
         failbit := decide ((window s p).length ≠ bufSize),
         badbit := false, count := (window s p).length },
       window s p ++ buffer.drop (window s p).length) := by
  have hw : List.take bufSize (List.drop p s) = window s p := rfl
  simp only [ifstream.read, ifstream.good, Option.getD_some, hw, Bool.not_false, Bool.and_self,
    if_true]
  by_cases h : (window s p).length = bufSize
  · simp [h]
  · simp [h]

/-- What one `move` does to a view whose stream is open on `s` and whose
state bits are ones a read can leave behind. -/
theorem move_eq (d : FileDisplay) (s : List Byte) (step : Int)
    (hc : d.file.contents = some s) (he : d.file.eofbit = true → d.file.fail = true) :
    d.move step =
      { d with
        offset := max (d.offset + step) 0
        bufContents := ((window s (max (d.offset + step) 0).toNat).length : Int)
        buffer := window s (max (d.offset + step) 0).toNat
                    ++ d.buffer.drop (window s (max (d.offset + step) 0).toNat).length
        file :=
          { contents := some s
            pos := (max (d.offset + step) 0).toNat
                    + (window s (max (d.offset + step) 0).toNat).length
            eofbit := decide ((window s (max (d.offset + step) 0).toNat).length ≠ bufSize)
            failbit := decide ((window s (max (d.offset + step) 0).toNat).length ≠ bufSize)
            badbit := false
            count := (window s (max (d.offset + step) 0).toNat).length } } := by
  have ho : (if d.offset + step < 0 then 0 else d.offset + step) = max (d.offset + step) 0 := by
    split <;> omega
  simp only [FileDisplay.move, ho]
  rw [seekg_after_clear d.file s _ (le_max_right _ _) hc he, read_good]
  simp [ifstream.gcount]

/-- The invariant makes the hypotheses of `move_eq` true. -/
theorem onStream_bits {d : FileDisplay} {s : List Byte} (h : d.OnStream s) :
    d.file.eofbit = true → d.file.fail = true := by
  intro he
  rw [ifstream.fail, h.failbit, ← h.eofbit, he]
  rfl

/-- Every `move` preserves the invariant. -/
theorem onStream_move {d : FileDisplay} {s : List Byte} (h : d.OnStream s) (step : Int) :
    (d.move step).OnStream s := by
  rw [move_eq d s step h.contents (onStream_bits h)]
  have hlen := window_length_le s (max (d.offset + step) 0).toNat
  constructor
  · rfl
  · exact le_max_right _ _
  · rfl
  · simp only [List.drop_left]
  · simp only [List.length_append, List.length_drop, h.buffer_length]
    omega
  · rfl
  · rfl
  · rfl
  · rfl
  · rfl

/-- Any sequence of moves preserves the invariant. -/
theorem onStream_moves {s : List Byte} (deltas : List Int) :
    ∀ {d : FileDisplay}, d.OnStream s → (d.moves deltas).OnStream s := by
  induction deltas with
  | nil => intro d h; exact h
  | cons a l ih => intro d h; exact ih (onStream_move h a)

/-- A view set up by `setFile` on a path that opens satisfies the invariant. -/
theorem opened_onStream (fs : FileSystem) (name : List Char) (s : List Byte)
    (hfs : fs (name.take (maxPath - 1)) = some s) :
    (FileDisplay.opened fs name).OnStream s := by
  have hlen := window_length_le s 0
  have e : FileDisplay.opened fs name =
      { bufContents := ((window s 0).length : Int)
        file := { contents := some s, pos := 0 + (window s 0).length,
                  eofbit := decide ((window s 0).length ≠ bufSize),
                  failbit := decide ((window s 0).length ≠ bufSize),
                  badbit := false, count := (window s 0).length }
        fileName := name.take (maxPath - 1)
        offset := 0
        buffer := window s 0 ++ (List.replicate bufSize 0).drop (window s 0).length } := by
    have hopen : (ifstream.new.close).open fs (name.take (maxPath - 1)) =
        { contents := some s, pos := 0, eofbit := false, failbit := false,
          badbit := false, count := 0 } := by
      simp [ifstream.open, hfs, ifstream.close, ifstream.new, ifstream.clear]
    simp only [FileDisplay.opened, FileDisplay.setFile, FileDisplay.new, hopen, read_good]
    simp [ifstream.gcount]
  rw [e]
  constructor
  · rfl
  · exact le_refl _
  · rfl
  · show _ = window s 0 ++ List.drop (window s 0).length _
    simp only [List.drop_left]
  · simp only [List.length_append, List.length_drop, List.length_replicate]
    omega
  · rfl
  · rfl
  · rfl
  · rfl
  · rfl

/-- Under the invariant, `move(0)` changes nothing at all. -/
theorem onStream_move_zero {d : FileDisplay} {s : List Byte} (h : d.OnStream s) :
    d.move 0 = d := by
  rw [move_eq d s 0 h.contents (onStream_bits h)]
  have ho : max (d.offset + 0) 0 = d.offset := by have := h.offset_nonneg; omega
  rw [ho]
  obtain ⟨bc, f, fn, o, b⟩ := d
  obtain ⟨c, p, e, fl, bd, cnt⟩ := f
  have h1 := h.contents; have h2 := h.valid; have h3 := h.front; have h4 := h.pos
  have h5 := h.count; have h6 := h.eofbit; have h7 := h.failbit; have h8 := h.badbit
  simp only at h1 h2 h3 h4 h5 h6 h7 h8
  simp only [FileDisplay.mk.injEq, ifstream.mk.injEq]
  exact ⟨h2.symm, ⟨h1.symm, h4.symm, h6.symm, h7.symm, h8.symm, h5.symm⟩, trivial, trivial, h3.symm⟩

/-- What one `move` does to a view without an open stream. -/
theorem noStream_move_eq {d : FileDisplay} (h : d.NoStream) (step : Int) :
    d.move step = { d with offset := max (d.offset + step) 0 } := by
  have ho : (if d.offset + step < 0 then 0 else d.offset + step) = max (d.offset + step) 0 := by
    split <;> omega
  obtain ⟨bc, f, fn, o, b⟩ := d
  obtain ⟨c, p, e, fl, bd, cnt⟩ := f
  have h1 := h.contents; have h2 := h.valid; have h5 := h.count
  have h6 := h.eofbit; have h7 := h.failbit; have h8 := h.badbit
  simp only at h1 h2 h5 h6 h7 h8 ho
  subst h1 h2 h5 h6 h7 h8
  simp [FileDisplay.move, ho, ifstream.fail, ifstream.clear, ifstream.seekg, ifstream.read,
    ifstream.good, ifstream.gcount]

theorem noStream_move {d : FileDisplay} (h : d.NoStream) (step : Int) :
    (d.move step).NoStream := by
  rw [noStream_move_eq h step]
  exact ⟨h.contents, le_max_right _ _, h.valid, h.count, h.eofbit, h.failbit, h.badbit⟩

theorem noStream_moves (deltas : List Int) :
    ∀ {d : FileDisplay}, d.NoStream → (d.moves deltas).NoStream := by
  induction deltas with
  | nil => intro d h; exact h
  | cons a l ih => intro d h; exact ih (noStream_move h a)

theorem noStream_move_zero {d : FileDisplay} (h : d.NoStream) : d.move 0 = d := by
  rw [noStream_move_eq h 0]
  have ho : max (d.offset + 0) 0 = d.offset := by have := h.offset_nonneg; omega
  rw [ho]

/-- A view set up by `setFile` on a path that cannot be opened has no stream. -/
theorem opened_noStream (fs : FileSystem) (name : List Char)
    (hfs : fs (name.take (maxPath - 1)) = none) :
    (FileDisplay.opened fs name).NoStream := by
  constructor <;>
    simp [FileDisplay.opened, FileDisplay.setFile, FileDisplay.new, ifstream.open, hfs,
      ifstream.close, ifstream.new, ifstream.clear, ifstream.read, ifstream.good,
      ifstream.gcount]

/-- A view that `main` has set up and moved is in one of the two invariants. -/
theorem opened_moves_cases (fs : FileSystem) (name : List Char) (deltas : List Int) :
    (∃ s, fs (name.take (maxPath - 1)) = some s
        ∧ ((FileDisplay.opened fs name).moves deltas).OnStream s)
      ∨ ((FileDisplay.opened fs name).moves deltas).NoStream := by
  cases hfs : fs (name.take (maxPath - 1)) with
  | none => exact Or.inr (noStream_moves deltas (opened_noStream fs name hfs))
  | some s => exact Or.inl ⟨s, rfl, onStream_moves deltas (opened_onStream fs name s hfs)⟩

/-- What `move` establishes, for any view satisfying the invariant. -/
theorem onStream_move_spec {d : FileDisplay} {s : List Byte} (h : d.OnStream s)
    (delta : Int) :
    (d.move delta).offset = max (d.offset + delta) 0
      ∧ (d.move delta).bufContents
          = min (bufSize : Int) (max ((s.length : Int) - (d.move delta).offset) 0)
      ∧ (d.move delta).buffer.take (d.move delta).bufContents.toNat
          = (s.drop (d.move delta).offset.toNat).take (d.move delta).bufContents.toNat := by
  have h2 := onStream_move h delta
  have ho : (d.move delta).offset = max (d.offset + delta) 0 := by
    rw [move_eq d s delta h.contents (onStream_bits h)]
  have hl := window_length s (d.move delta).offset.toNat
  have hpos := h2.offset_nonneg
  refine ⟨ho, ?_, ?_⟩
  · rw [h2.valid, hl]; omega
  · rw [h2.valid, Int.toNat_ofNat]
    conv_lhs => rw [h2.front]
    rw [List.take_left]
    show List.take bufSize (List.drop _ s) = _
    rw [List.take_eq_take, window_length, List.length_drop]
    omega

/-- C4: on a view bound to a stream `s` by `setFile` and moved any number
of times, `move(delta)` sets the offset to `max (offset + delta) 0`, the
valid length to `min bufSize (max (length s - newOffset) 0)` (hence 0 at
or past the end of the stream), and the first `validLength` bytes of the
buffer to the bytes of the stream from the new offset on. -/
theorem move_on_stream (fs : FileSystem) (name : List Char) (s : List Byte)
    (hfs : fs (name.take (maxPath - 1)) = some s) (deltas : List Int) (delta : Int) :
    (((FileDisplay.opened fs name).moves deltas).move delta).offset
        = max (((FileDisplay.opened fs name).moves deltas).offset + delta) 0
      ∧ (((FileDisplay.opened fs name).moves deltas).move delta).bufContents
        = min (bufSize : Int)
            (max ((s.length : Int)
              - (((FileDisplay.opened fs name).moves deltas).move delta).offset) 0)
      ∧ ((s.length : Int) ≤ (((FileDisplay.opened fs name).moves deltas).move delta).offset
          → (((FileDisplay.opened fs name).moves deltas).move delta).bufContents = 0)
      ∧ (((FileDisplay.opened fs name).moves deltas).move delta).buffer.take
          (((FileDisplay.opened fs name).moves deltas).move delta).bufContents.toNat
        = (s.drop (((FileDisplay.opened fs name).moves deltas).move delta).offset.toNat).take
            (((FileDisplay.opened fs name).moves deltas).move delta).bufContents.toNat := by
  have h := onStream_move_spec (onStream_moves deltas (opened_onStream fs name s hfs)) delta
  refine ⟨h.1, h.2.1, fun hle => ?_, h.2.2⟩
  rw [h.2.1]
  omega

/-- Witness for C4: a 3-byte stream, the view moved to offset 5 and then
back by 4. -/
theorem move_on_stream_witness :
    (((FileDisplay.opened (oneFile [1, 2, 3]) []).moves [5]).move (-4)).offset = 1
      ∧ (((FileDisplay.opened (oneFile [1, 2, 3]) []).moves [5]).move (-4)).bufContents = 2
      ∧ (((FileDisplay.opened (oneFile [1, 2, 3]) []).moves [5]).move (-4)).buffer.take 2
          = [2, 3] := by
  have h := move_on_stream (oneFile [1, 2, 3]) [] [1, 2, 3] rfl [5] (-4)
  have e1 : max (((FileDisplay.opened (oneFile [1, 2, 3]) []).moves [5]).offset + (-4)) 0 = 1 := by
    decide
  rw [e1] at h
  refine ⟨h.1, ?_, ?_⟩
  · rw [h.2.1, h.1]; decide
  · have h3 := h.2.2.2
    rw [h.2.1, h.1] at h3
    exact h3

/-- C5: for a view set up by `setFile` (whether or not the path opens)
and any sequence of deltas, the offset is at least 0 after each of the
moves, that is, after every initial part of the sequence. -/
theorem move_offset_nonneg (fs : FileSystem) (name : List Char) (deltas : List Int) (k : Nat) :
    0 ≤ ((FileDisplay.opened fs name).moves (deltas.take k)).offset := by
  rcases opened_moves_cases fs name (deltas.take k) with ⟨s, _, h⟩ | h
  · exact h.offset_nonneg
  · exact h.offset_nonneg

/-- C6: on a view set up by `setFile` and moved any number of times,
`move(0)` leaves the buffer, the valid length and the offset as they
were. -/
theorem move_zero_noop (fs : FileSystem) (name : List Char) (deltas : List Int) :
    (((FileDisplay.opened fs name).moves deltas).move 0).buffer
        = ((FileDisplay.opened fs name).moves deltas).buffer
      ∧ (((FileDisplay.opened fs name).moves deltas).move 0).bufContents
        = ((FileDisplay.opened fs name).moves deltas).bufContents
      ∧ (((FileDisplay.opened fs name).moves deltas).move 0).offset
        = ((FileDisplay.opened fs name).moves deltas).offset := by
  have e : ((FileDisplay.opened fs name).moves deltas).move 0
      = (FileDisplay.opened fs name).moves deltas := by
    rcases opened_moves_cases fs name deltas with ⟨s, _, h⟩ | h
    · exact onStream_move_zero h
    · exact noStream_move_zero h
  rw [e]
  exact ⟨rfl, rfl, rfl⟩

/-- C7: the freshly constructed view has valid length 0; and in every
state reached by `setFile` on a path that opens on `s` followed by any
moves, the valid length lies between 0 and `bufSize`, and it is below
`bufSize` exactly when `offset + bufSize` exceeds the length of `s`. -/
theorem bufContents_bounds (fs : FileSystem) (name : List Char) (s : List Byte)
    (hfs : fs (name.take (maxPath - 1)) = some s) (deltas : List Int) :
    (0 ≤ FileDisplay.new.bufContents ∧ FileDisplay.new.bufContents ≤ bufSize)
      ∧ 0 ≤ ((FileDisplay.opened fs name).moves deltas).bufContents
      ∧ ((FileDisplay.opened fs name).moves deltas).bufContents ≤ bufSize
      ∧ (((FileDisplay.opened fs name).moves deltas).bufContents < bufSize
          ↔ (s.length : Int) < ((FileDisplay.opened fs name).moves deltas).offset + bufSize) := by
  have h := onStream_moves deltas (opened_onStream fs name s hfs)
  have hl := window_length s ((FileDisplay.opened fs name).moves deltas).offset.toNat
  have hpos := h.offset_nonneg
  have hb : bufSize = 144 := rfl
  refine ⟨by decide, ?_, ?_, ?_⟩
  · rw [h.valid]; omega
  · rw [h.valid]; omega
  · rw [h.valid]; omega

/-- Witness for C7: a 3-byte stream, the view moved forward by 1. -/
theorem bufContents_bounds_witness :
    ((FileDisplay.opened (oneFile [1, 2, 3]) []).moves [1]).bufContents = 2
      ∧ (((FileDisplay.opened (oneFile [1, 2, 3]) []).moves [1]).bufContents < bufSize
          ↔ (([1, 2, 3] : List Byte).length : Int)
              < ((FileDisplay.opened (oneFile [1, 2, 3]) []).moves [1]).offset + bufSize) :=
  ⟨by decide, (bufContents_bounds (oneFile [1, 2, 3]) [] [1, 2, 3] rfl [1]).2.2.2⟩

/-! ## The command handler -/

/-- The value `compute` returns does not depend on the `Difference` object
it is called on. -/
theorem compute_fst_indep (self other : Difference) (A B : FileDisplay) :
    (self.compute A B).1 = (other.compute A B).1 := by
  simp only [Difference.compute]
  split
  · rfl
  · split <;> rfl

/-- Unless `compute` returns the sentinel, it stores the value it returns in
`numDiffs`. -/
theorem compute_numDiffs (self : Difference) (A B : FileDisplay)
    (h : (self.compute A B).1 ≠ -1) :
    (self.compute A B).2.numDiffs = (self.compute A B).1 := by
  revert h
  simp only [Difference.compute]
  split
  · intro _; rfl
  · split
    · intro h; exact absurd rfl h
    · intro _; rfl

/-- For non-negative valid lengths `compute` returns either the sentinel,
when both are 0, or a value that is at least 0. -/
theorem compute_fst_cases (self : Difference) (A B : FileDisplay)
    (hA : 0 ≤ A.bufContents) (hB : 0 ≤ B.bufContents) :
    ((self.compute A B).1 = -1 ∧ A.bufContents = 0 ∧ B.bufContents = 0)
      ∨ (0 ≤ (self.compute A B).1 ∧ ¬ (A.bufContents = 0 ∧ B.bufContents = 0)) := by
  rw [compute_fst self A B hA hB]
  by_cases h : A.bufContents = 0 ∧ B.bufContents = 0
  · rw [if_pos h]; exact Or.inl ⟨rfl, h⟩
  · rw [if_neg h]
    have h1 : 0 ≤ |A.bufContents - B.bufContents| := abs_nonneg _
    exact Or.inr ⟨by omega, h⟩

/-- The valid length after a `move` is a byte count, hence not negative. -/
theorem move_bufContents_nonneg (d : FileDisplay) (step : Int) :
    0 ≤ (d.move step).bufContents := by
  simp only [FileDisplay.move, ifstream.gcount]
  exact Int.ofNat_nonneg _

/-- What the scan loop leaves behind when it ends: views produced by `move`,
and a `Difference` object produced by a `compute` on them that returned a
value other than 0. -/
theorem scanLoop_result :
    ∀ (fuel : Nat) (g g1 : Globals), scanLoop fuel g = some g1 →
      0 ≤ g1.file1.bufContents ∧ 0 ≤ g1.file2.bufContents
        ∧ ∃ self : Difference, g1.diffs = (self.compute g1.file1 g1.file2).2
            ∧ (self.compute g1.file1 g1.file2).1 ≠ 0 := by
  intro fuel
  induction fuel with
  | zero => intro g g1 h; simp [scanLoop] at h
  | succ n ih =>
    intro g g1 h
    simp only [scanLoop] at h
    split at h
    · exact ih _ _ h
    · rename_i hne
      simp only [Option.some.injEq] at h
      subst h
      exact ⟨move_bufContents_nonneg _ _, move_bufContents_nonneg _ _, g.diffs, rfl, hne⟩

theorem scanLoop_fuel_pos (fuel : Nat) (g g1 : Globals) (h : scanLoop fuel g = some g1) :
    ∃ n, fuel = n + 1 := by
  cases fuel with
  | zero => simp [scanLoop] at h
  | succ n => exact ⟨n, rfl⟩

/-- For `cmNextDiff`, `handleCmd` is the scan loop followed by the
boundary-correction loop. -/
theorem handleCmd_nextDiff (fuel : Nat) (g : Globals) :
    handleCmd fuel cmNextDiff g = (scanLoop fuel g).bind (correctLoop fuel) := by
  have hcmd : ¬ (cmNextDiff &&& cmmMove ≠ 0) := by decide
  simp only [handleCmd, if_neg hcmd, if_true]

/-- The boundary-correction loop ends at once when `compute` is not negative. -/
theorem correctLoop_stop (n : Nat) (g : Globals)
    (h : ¬ (g.diffs.compute g.file1 g.file2).1 < 0) :
    correctLoop (n + 1) g = some { g with diffs := (g.diffs.compute g.file1 g.file2).2 } := by
  simp only [correctLoop, if_neg h]

/-- The boundary-correction loop steps both views back when `compute` is
negative. -/
theorem correctLoop_step (n : Nat) (g : Globals)
    (h : (g.diffs.compute g.file1 g.file2).1 < 0) :
    correctLoop (n + 1) g =
      correctLoop n
        { file1 := g.file1.move (-(steps.getD cmmMovePage 0))
          file2 := g.file2.move (-(steps.getD cmmMovePage 0))
          diffs := (g.diffs.compute g.file1 g.file2).2 } := by
  simp only [correctLoop, if_pos h]

/-- C8: if the scan loop of `cmNextDiff` ends in a state on which `compute`
does not return the sentinel, then `handleCmd` returns with the views the
scan loop ended on, and `getNumDiffs`, which is the value of the final
`compute`, is positive. -/
theorem nextDiff_numDiffs_pos (fuel : Nat) (g g1 : Globals)
    (hscan : scanLoop fuel g = some g1)
    (hns : (g1.diffs.compute g1.file1 g1.file2).1 ≠ -1) :
    ∃ g2, handleCmd fuel cmNextDiff g = some g2
      ∧ g2.file1 = g1.file1 ∧ g2.file2 = g1.file2
      ∧ g2.diffs.getNumDiffs = (g1.diffs.compute g1.file1 g1.file2).1
      ∧ 0 < g2.diffs.getNumDiffs := by
  obtain ⟨n, rfl⟩ := scanLoop_fuel_pos fuel g g1 hscan
  obtain ⟨hb1, hb2, self, _, hnz⟩ := scanLoop_result _ g g1 hscan
  have hnz2 : (g1.diffs.compute g1.file1 g1.file2).1 ≠ 0 := by
    rw [compute_fst_indep g1.diffs self]; exact hnz
  have hpos : 0 < (g1.diffs.compute g1.file1 g1.file2).1 := by
    rcases compute_fst_cases g1.diffs g1.file1 g1.file2 hb1 hb2 with hc | hc
    · exact absurd hc.1 hns
    · omega
  have hnl : ¬ (g1.diffs.compute g1.file1 g1.file2).1 < 0 := by omega
  refine ⟨{ g1 with diffs := (g1.diffs.compute g1.file1 g1.file2).2 }, ?_, rfl, rfl, ?_, ?_⟩
  · rw [handleCmd_nextDiff, hscan]
    exact correctLoop_stop n g1 hnl
  · exact compute_numDiffs _ _ _ hns
  · rw [Difference.getNumDiffs, compute_numDiffs _ _ _ hns]; exact hpos

/-- Witness for C8: a 145-byte file against an empty file; the scan loop
stops after one page on a window with one byte that only the first file
has. -/
theorem nextDiff_numDiffs_pos_witness :
    ∃ g2, handleCmd 1 cmNextDiff
        { file1 := FileDisplay.opened (oneFile (List.replicate 145 7)) []
          file2 := FileDisplay.opened (oneFile []) []
          diffs := ⟨0, []⟩ } = some g2
      ∧ g2.diffs.getNumDiffs = 1 := by
  obtain ⟨g2, h1, _, _, h4, _⟩ := nextDiff_numDiffs_pos 1
    { file1 := FileDisplay.opened (oneFile (List.replicate 145 7)) []
      file2 := FileDisplay.opened (oneFile []) []
      diffs := ⟨0, []⟩ }
    { file1 := (FileDisplay.opened (oneFile (List.replicate 145 7)) []).move bufSize
      file2 := (FileDisplay.opened (oneFile []) []).move bufSize
      diffs := ((⟨0, []⟩ : Difference).compute
        ((FileDisplay.opened (oneFile (List.replicate 145 7)) []).move bufSize)
        ((FileDisplay.opened (oneFile []) []).move bufSize)).2 }
    (by decide) (by decide)
  exact ⟨g2, h1, h4.trans (by decide)⟩

theorem window_nil (o : Nat) : window [] o = [] := by
  simp [window]

/-- On an empty stream every window is empty. -/
theorem onStream_nil_valid {d : FileDisplay} (h : d.OnStream []) : d.bufContents = 0 := by
  rw [h.valid, window_nil]; rfl

/-- On two views of valid length 0 `compute` returns the sentinel. -/
theorem compute_both_empty (self : Difference) (A B : FileDisplay)
    (hA : A.bufContents = 0) (hB : B.bufContents = 0) : (self.compute A B).1 = -1 := by
  rw [compute_fst self A B (by omega) (by omega), if_pos ⟨hA, hB⟩]

/-- With both views on empty streams the boundary-correction loop never ends. -/
theorem correctLoop_diverges :
    ∀ (fuel : Nat) (g : Globals), g.file1.OnStream [] → g.file2.OnStream [] →
      correctLoop fuel g = none := by
  intro fuel
  induction fuel with
  | zero => intro g _ _; rfl
  | succ n ih =>
    intro g h1 h2
    have hc := compute_both_empty g.diffs g.file1 g.file2
      (onStream_nil_valid h1) (onStream_nil_valid h2)
    rw [correctLoop_step n g (by omega)]
    exact ih _ (onStream_move h1 _) (onStream_move h2 _)

/-- C9, at the failing input: with two empty files, from any state that
`setFile` and moves reach, the boundary-correction loop is still running
after any number of iterations. -/
theorem correctLoop_two_empty_files (fuel : Nat) (deltas1 deltas2 : List Int)
    (diffs : Difference) :
    correctLoop fuel
      { file1 := (FileDisplay.opened (oneFile []) []).moves deltas1
        file2 := (FileDisplay.opened (oneFile []) []).moves deltas2
        diffs := diffs } = none :=
  correctLoop_diverges fuel _
    (onStream_moves deltas1 (opened_onStream (oneFile []) [] [] rfl))
    (onStream_moves deltas2 (opened_onStream (oneFile []) [] [] rfl))

theorem window_length_pos (s : List Byte) (h : s ≠ []) : 0 < (window s 0).length := by
  rw [window_length]
  have : 0 < s.length := List.length_pos.mpr h
  have hb : bufSize = 144 := rfl
  omega

theorem steps_page : steps.getD cmmMovePage 0 = 128 := by decide

/-- When at least one of the two streams is not empty, the
boundary-correction loop ends, in a state where not both valid lengths are
0, so that `compute` does not return the sentinel there.  Views at offsets
of at most `128 * n` need at most `n + 1` evaluations of the loop
condition. -/
theorem correctLoop_terminates (s1 s2 : List Byte) (hne : s1 ≠ [] ∨ s2 ≠ []) :
    ∀ (n : Nat) (g : Globals), g.file1.OnStream s1 → g.file2.OnStream s2 →
      g.file1.offset ≤ 128 * n → g.file2.offset ≤ 128 * n →
      ∃ g2, correctLoop (n + 1) g = some g2
        ∧ g2.file1.OnStream s1 ∧ g2.file2.OnStream s2
        ∧ ¬ (g2.file1.bufContents = 0 ∧ g2.file2.bufContents = 0)
        ∧ (g2.diffs.compute g2.file1 g2.file2).1 ≠ -1 := by
  have stop : ∀ (m : Nat) (g : Globals), g.file1.OnStream s1 → g.file2.OnStream s2 →
      ¬ (g.diffs.compute g.file1 g.file2).1 < 0 →
      ∃ g2, correctLoop (m + 1) g = some g2
        ∧ g2.file1.OnStream s1 ∧ g2.file2.OnStream s2
        ∧ ¬ (g2.file1.bufContents = 0 ∧ g2.file2.bufContents = 0)
        ∧ (g2.diffs.compute g2.file1 g2.file2).1 ≠ -1 := by
    intro m g h1 h2 hnl
    have hb1 : 0 ≤ g.file1.bufContents := by rw [h1.valid]; exact Int.ofNat_nonneg _
    have hb2 : 0 ≤ g.file2.bufContents := by rw [h2.valid]; exact Int.ofNat_nonneg _
    refine ⟨_, correctLoop_stop m g hnl, h1, h2, ?_, ?_⟩
    · rcases compute_fst_cases g.diffs g.file1 g.file2 hb1 hb2 with hc | hc
      · omega
      · exact hc.2
    · show ((g.diffs.compute g.file1 g.file2).2.compute g.file1 g.file2).1 ≠ -1
      rw [compute_fst_indep _ g.diffs]
      omega
  intro n
  induction n with
  | zero =>
    intro g h1 h2 ho1 ho2
    apply stop 0 g h1 h2
    intro hlt
    have hb1 : 0 ≤ g.file1.bufContents := by rw [h1.valid]; exact Int.ofNat_nonneg _
    have hb2 : 0 ≤ g.file2.bufContents := by rw [h2.valid]; exact Int.ofNat_nonneg _
    have e1 : g.file1.offset.toNat = 0 := by have := h1.offset_nonneg; omega
    have e2 : g.file2.offset.toNat = 0 := by have := h2.offset_nonneg; omega
    have v1 := h1.valid
    have v2 := h2.valid
    rw [e1] at v1
    rw [e2] at v2
    rcases compute_fst_cases g.diffs g.file1 g.file2 hb1 hb2 with hc | hc
    · rcases hne with hs | hs
      · have := window_length_pos s1 hs; omega
      · have := window_length_pos s2 hs; omega
    · omega
  | succ n ih =>
    intro g h1 h2 ho1 ho2
    by_cases hlt : (g.diffs.compute g.file1 g.file2).1 < 0
    · rw [correctLoop_step (n + 1) g hlt]
      apply ih _ (onStream_move h1 _) (onStream_move h2 _)
      · show (g.file1.move (-(steps.getD cmmMovePage 0))).offset ≤ 128 * (n : Int)
        rw [(onStream_move_spec h1 _).1, steps_page]; push_cast at ho1; omega
      · show (g.file2.move (-(steps.getD cmmMovePage 0))).offset ≤ 128 * (n : Int)
        rw [(onStream_move_spec h2 _).1, steps_page]; push_cast at ho2; omega
    · exact stop (n + 1) g h1 h2 hlt

theorem numDiffering_congr (A B A2 B2 : FileDisplay) (n : Nat)
    (hA : ∀ i, i < n → A.buffer.getD i 0 = A2.buffer.getD i 0)
    (hB : ∀ i, i < n → B.buffer.getD i 0 = B2.buffer.getD i 0) :
    numDiffering A B n = numDiffering A2 B2 n := by
  unfold numDiffering
  apply List.countP_congr
  intro i hi
  have hlt : i < n := List.mem_range.mp hi
  rw [hA i hlt, hB i hlt]

/-- Below the valid length, the buffer of a view on a stream holds the
bytes of the window. -/
theorem onStream_getD {d : FileDisplay} {s : List Byte} (h : d.OnStream s) (i : Nat)
    (hi : i < (window s d.offset.toNat).length) :
    d.buffer.getD i 0 = (window s d.offset.toNat).getD i 0 := by
  rw [h.front, List.getD_append _ _ _ _ hi]

theorem viewOf_getD (n : Int) (w : List Byte) (i : Nat) (hi : i < w.length) :
    (viewOf n w).buffer.getD i 0 = w.getD i 0 := by
  show (w ++ _).getD i 0 = _
  rw [List.getD_append _ _ _ _ hi]

/-- The value `compute` returns for two views on streams is determined by
the two windows. -/
theorem compute_eq_windowDiff (self : Difference) {A B : FileDisplay} {s1 s2 : List Byte}
    (h1 : A.OnStream s1) (h2 : B.OnStream s2) :
    (self.compute A B).1 = windowDiff s1 s2 A.offset.toNat B.offset.toNat := by
  have hb1 : 0 ≤ A.bufContents := by rw [h1.valid]; exact Int.ofNat_nonneg _
  have hb2 : 0 ≤ B.bufContents := by rw [h2.valid]; exact Int.ofNat_nonneg _
  unfold windowDiff
  rw [compute_fst self A B hb1 hb2,
    compute_fst _ (viewOf _ _) (viewOf _ _) (Int.ofNat_nonneg _) (Int.ofNat_nonneg _)]
  have e1 : (viewOf ((window s1 A.offset.toNat).length : Int)
      (window s1 A.offset.toNat)).bufContents = A.bufContents := h1.valid.symm
  have e2 : (viewOf ((window s2 B.offset.toNat).length : Int)
      (window s2 B.offset.toNat)).bufContents = B.bufContents := h2.valid.symm
  rw [e1, e2]
  have hn : numDiffering A B (min A.bufContents B.bufContents).toNat
      = numDiffering (viewOf ((window s1 A.offset.toNat).length : Int) (window s1 A.offset.toNat))
          (viewOf ((window s2 B.offset.toNat).length : Int) (window s2 B.offset.toNat))
          (min A.bufContents B.bufContents).toNat := by
    have v1 := h1.valid
    have v2 := h2.valid
    apply numDiffering_congr
    · intro i hi
      have hi1 : i < (window s1 A.offset.toNat).length := by omega
      rw [onStream_getD h1 i hi1, viewOf_getD _ _ i hi1]
    · intro i hi
      have hi2 : i < (window s2 B.offset.toNat).length := by omega
      rw [onStream_getD h2 i hi2, viewOf_getD _ _ i hi2]
  rw [hn]

/-- One page forward on a view on a stream: the offset grows by `bufSize`. -/
theorem onStream_move_page {d : FileDisplay} {s : List Byte} (h : d.OnStream s) :
    (d.move bufSize).offset.toNat = d.offset.toNat + bufSize := by
  have h0 := h.offset_nonneg
  rw [(onStream_move_spec h _).1]
  omega

theorem scanLoop_continue (n : Nat) (g : Globals)
    (h : (g.diffs.compute (g.file1.move bufSize) (g.file2.move bufSize)).1 = 0) :
    scanLoop (n + 1) g =
      scanLoop n
        { file1 := g.file1.move bufSize
          file2 := g.file2.move bufSize
          diffs := (g.diffs.compute (g.file1.move bufSize) (g.file2.move bufSize)).2 } := by
  simp only [scanLoop, if_pos h]

theorem scanLoop_stop (n : Nat) (g : Globals)
    (h : (g.diffs.compute (g.file1.move bufSize) (g.file2.move bufSize)).1 ≠ 0) :
    scanLoop (n + 1) g =
      some
        { file1 := g.file1.move bufSize
          file2 := g.file2.move bufSize
          diffs := (g.diffs.compute (g.file1.move bufSize) (g.file2.move bufSize)).2 } := by
  simp only [scanLoop, if_neg h]

/-- The scan loop on two views on streams: if the windows `j` pages ahead
give 0 for `1 ≤ j ≤ k` and a value other than 0 for `j = k + 1`, the loop
runs exactly `k + 1` times. -/
theorem scanLoop_spec (s1 s2 : List Byte) :
    ∀ (k : Nat) (g : Globals), g.file1.OnStream s1 → g.file2.OnStream s2 →
      (∀ j, 1 ≤ j → j < k + 1 →
        windowDiff s1 s2 (g.file1.offset.toNat + bufSize * j)
          (g.file2.offset.toNat + bufSize * j) = 0) →
      windowDiff s1 s2 (g.file1.offset.toNat + bufSize * (k + 1))
          (g.file2.offset.toNat + bufSize * (k + 1)) ≠ 0 →
      (∀ fuel, fuel < k + 1 → scanLoop fuel g = none)
        ∧ ∃ g2, (∀ fuel, k + 1 ≤ fuel → scanLoop fuel g = some g2)
            ∧ g2.file1.OnStream s1 ∧ g2.file2.OnStream s2
            ∧ g2.file1.offset.toNat = g.file1.offset.toNat + bufSize * (k + 1)
            ∧ g2.file2.offset.toNat = g.file2.offset.toNat + bufSize * (k + 1) := by
  intro k
  induction k with
  | zero =>
    intro g h1 h2 _ hk
    have m1 := onStream_move h1 bufSize
    have m2 := onStream_move h2 bufSize
    have hr : (g.diffs.compute (g.file1.move bufSize) (g.file2.move bufSize)).1 ≠ 0 := by
      rw [compute_eq_windowDiff _ m1 m2, onStream_move_page h1, onStream_move_page h2]
      simpa using hk
    refine ⟨?_,
      { file1 := g.file1.move bufSize
        file2 := g.file2.move bufSize
        diffs := (g.diffs.compute (g.file1.move bufSize) (g.file2.move bufSize)).2 },
      ?_, m1, m2, ?_, ?_⟩
    · intro fuel hf
      have : fuel = 0 := by omega
      subst this
      rfl
    · intro fuel hf
      obtain ⟨n, rfl⟩ : ∃ n, fuel = n + 1 := ⟨fuel - 1, by omega⟩
      exact scanLoop_stop n g hr
    · show (g.file1.move bufSize).offset.toNat = _
      rw [onStream_move_page h1]; simp
    · show (g.file2.move bufSize).offset.toNat = _
      rw [onStream_move_page h2]; simp
  | succ k ih =>
    intro g h1 h2 hz hk
    have m1 := onStream_move h1 bufSize
    have m2 := onStream_move h2 bufSize
    have hr : (g.diffs.compute (g.file1.move bufSize) (g.file2.move bufSize)).1 = 0 := by
      rw [compute_eq_windowDiff _ m1 m2, onStream_move_page h1, onStream_move_page h2]
      simpa using hz 1 (le_refl _) (by omega)
    have p1 := onStream_move_page h1
    have p2 := onStream_move_page h2
    obtain ⟨hnone, g2, hsome, q1, q2, o1, o2⟩ := ih
      { file1 := g.file1.move bufSize
        file2 := g.file2.move bufSize
        diffs := (g.diffs.compute (g.file1.move bufSize) (g.file2.move bufSize)).2 }
      m1 m2
      (by
        intro j hj1 hj2
        have := hz (j + 1) (by omega) (by omega)
        show windowDiff s1 s2 ((g.file1.move bufSize).offset.toNat + bufSize * j)
          ((g.file2.move bufSize).offset.toNat + bufSize * j) = 0
        rw [p1, p2]
        rw [Nat.mul_add, Nat.mul_one, Nat.add_comm (bufSize * j) bufSize,
          ← Nat.add_assoc, ← Nat.add_assoc] at this
        exact this)
      (by
        show windowDiff s1 s2 ((g.file1.move bufSize).offset.toNat + bufSize * (k + 1))
          ((g.file2.move bufSize).offset.toNat + bufSize * (k + 1)) ≠ 0
        rw [p1, p2]
        rw [Nat.mul_add bufSize (k + 1) 1, Nat.mul_one, Nat.add_comm (bufSize * (k + 1)) bufSize,
          ← Nat.add_assoc, ← Nat.add_assoc] at hk
        exact hk)
    refine ⟨?_, g2, ?_, q1, q2, ?_, ?_⟩
    · intro fuel hf
      cases fuel with
      | zero => rfl
      | succ n =>
        rw [scanLoop_continue n g hr]
        exact hnone n (by omega)
    · intro fuel hf
      obtain ⟨n, rfl⟩ : ∃ n, fuel = n + 1 := ⟨fuel - 1, by omega⟩
      rw [scanLoop_continue n g hr]
      exact hsome n (by omega)
    · rw [o1]
      show (g.file1.move bufSize).offset.toNat + _ = _
      rw [p1]; ring
    · rw [o2]
      show (g.file2.move bufSize).offset.toNat + _ = _
      rw [p2]; ring

theorem window_past_end (s : List Byte) (o : Nat) (h : s.length ≤ o) : window s o = [] := by
  unfold window
  rw [List.drop_eq_nil_of_le h]
  rfl

/-- For two windows `windowDiff` is the sentinel, when both are empty, or
at least 0. -/
theorem windowDiff_cases (s1 s2 : List Byte) (o1 o2 : Nat) :
    (windowDiff s1 s2 o1 o2 = -1 ∧ window s1 o1 = [] ∧ window s2 o2 = [])
      ∨ 0 ≤ windowDiff s1 s2 o1 o2 := by
  unfold windowDiff
  rcases compute_fst_cases ⟨0, []⟩
      (viewOf ((window s1 o1).length : Int) (window s1 o1))
      (viewOf ((window s2 o2).length : Int) (window s2 o2))
      (Int.ofNat_nonneg _) (Int.ofNat_nonneg _) with hc | hc
  · refine Or.inl ⟨hc.1, ?_, ?_⟩
    · have h : ((window s1 o1).length : Int) = 0 := hc.2.1
      exact List.length_eq_zero.mp (by exact_mod_cast h)
    · have h : ((window s2 o2).length : Int) = 0 := hc.2.2
      exact List.length_eq_zero.mp (by exact_mod_cast h)
  · exact Or.inr hc.1

theorem windowDiff_past_end (s1 s2 : List Byte) (o1 o2 : Nat)
    (h1 : s1.length ≤ o1) (h2 : s2.length ≤ o2) : windowDiff s1 s2 o1 o2 = -1 := by
  unfold windowDiff
  apply compute_both_empty
  · show ((window s1 o1).length : Int) = 0
    rw [window_past_end s1 o1 h1]; rfl
  · show ((window s2 o2).length : Int) = 0
    rw [window_past_end s2 o2 h2]; rfl

/-- The scan loop on two views on streams ends, after exactly `k` runs of
its body, where `k` is the first page count at which the windows do not
give 0. -/
theorem scanLoop_exact_onStream (s1 s2 : List Byte) (g : Globals)
    (h1 : g.file1.OnStream s1) (h2 : g.file2.OnStream s2) :
    ∃ (k : Nat) (g2 : Globals), 1 ≤ k
      ∧ (∀ fuel, k ≤ fuel → scanLoop fuel g = some g2)
      ∧ (∀ fuel, fuel < k → scanLoop fuel g = none)
      ∧ g2.file1.offset = g.file1.offset + bufSize * k
      ∧ g2.file2.offset = g.file2.offset + bufSize * k
      ∧ (0 < windowDiff s1 s2 (g.file1.offset.toNat + bufSize * k)
              (g.file2.offset.toNat + bufSize * k)
          ∨ (windowDiff s1 s2 (g.file1.offset.toNat + bufSize * k)
                (g.file2.offset.toNat + bufSize * k) = -1
              ∧ window s1 (g.file1.offset.toNat + bufSize * k) = []
              ∧ window s2 (g.file2.offset.toNat + bufSize * k) = []))
      ∧ ∀ j, 1 ≤ j → j < k →
          windowDiff s1 s2 (g.file1.offset.toNat + bufSize * j)
            (g.file2.offset.toNat + bufSize * j) = 0 := by
  have hb : bufSize = 144 := rfl
  have hex : ∃ j, windowDiff s1 s2 (g.file1.offset.toNat + bufSize * (j + 1))
      (g.file2.offset.toNat + bufSize * (j + 1)) ≠ 0 := by
    refine ⟨s1.length + s2.length, ?_⟩
    rw [windowDiff_past_end s1 s2 _ _ (by rw [hb]; omega) (by rw [hb]; omega)]
    decide
  obtain ⟨hnone, g2, hsome, q1, q2, e1, e2⟩ := scanLoop_spec s1 s2 (Nat.find hex) g h1 h2
    (by
      intro j hj1 hj2
      have hmin := Nat.find_min hex (m := j - 1) (by omega)
      have ej : j - 1 + 1 = j := by omega
      rw [ej] at hmin
      exact not_not.mp hmin)
    (Nat.find_spec hex)
  have p1 := h1.offset_nonneg
  have p2 := h2.offset_nonneg
  have r1 := q1.offset_nonneg
  have r2 := q2.offset_nonneg
  refine ⟨Nat.find hex + 1, g2, by omega, hsome, hnone, ?_, ?_, ?_, ?_⟩
  · have e : ((g2.file1.offset.toNat : Nat) : Int)
        = ((g.file1.offset.toNat + bufSize * (Nat.find hex + 1) : Nat) : Int) := by rw [e1]
    rw [Int.toNat_of_nonneg r1] at e
    push_cast at e
    rw [Int.toNat_of_nonneg p1] at e
    push_cast
    exact e
  · have e : ((g2.file2.offset.toNat : Nat) : Int)
        = ((g.file2.offset.toNat + bufSize * (Nat.find hex + 1) : Nat) : Int) := by rw [e2]
    rw [Int.toNat_of_nonneg r2] at e
    push_cast at e
    rw [Int.toNat_of_nonneg p2] at e
    push_cast
    exact e
  · rcases windowDiff_cases s1 s2 (g.file1.offset.toNat + bufSize * (Nat.find hex + 1))
        (g.file2.offset.toNat + bufSize * (Nat.find hex + 1)) with hc | hc
    · exact Or.inr hc
    · have := Nat.find_spec hex
      exact Or.inl (by omega)
  · intro j hj1 hj2
    have hmin := Nat.find_min hex (m := j - 1) (by omega)
    have ej : j - 1 + 1 = j := by omega
    rw [ej] at hmin
    exact not_not.mp hmin

/-- C10: for `cmNextDiff` on two files that opened on `s1` and `s2`, with
the views at any offsets that moves reach, the scan loop ends after exactly
`k` runs of its body (it returns with `k` or more and not with fewer), for a
`k ≥ 1`; the views are then `k` pages ahead, the windows there differ or are
both empty, and the windows `j` pages ahead give 0 for every `1 ≤ j < k`. -/
theorem scanLoop_exact (fs : FileSystem) (name1 name2 : List Char) (s1 s2 : List Byte)
    (hfs1 : fs (name1.take (maxPath - 1)) = some s1)
    (hfs2 : fs (name2.take (maxPath - 1)) = some s2)
    (deltas1 deltas2 : List Int) (diffs : Difference) :
    ∃ (k : Nat) (g2 : Globals), 1 ≤ k
      ∧ (∀ fuel, k ≤ fuel →
          scanLoop fuel (stateAfter fs name1 name2 deltas1 deltas2 diffs) = some g2)
      ∧ (∀ fuel, fuel < k →
          scanLoop fuel (stateAfter fs name1 name2 deltas1 deltas2 diffs) = none)
      ∧ g2.file1.offset
          = (stateAfter fs name1 name2 deltas1 deltas2 diffs).file1.offset + bufSize * k
      ∧ g2.file2.offset
          = (stateAfter fs name1 name2 deltas1 deltas2 diffs).file2.offset + bufSize * k
      ∧ (0 < windowDiff s1 s2
              ((stateAfter fs name1 name2 deltas1 deltas2 diffs).file1.offset.toNat + bufSize * k)
              ((stateAfter fs name1 name2 deltas1 deltas2 diffs).file2.offset.toNat + bufSize * k)
          ∨ (windowDiff s1 s2
                ((stateAfter fs name1 name2 deltas1 deltas2 diffs).file1.offset.toNat
                  + bufSize * k)
                ((stateAfter fs name1 name2 deltas1 deltas2 diffs).file2.offset.toNat
                  + bufSize * k) = -1
              ∧ window s1
                  ((stateAfter fs name1 name2 deltas1 deltas2 diffs).file1.offset.toNat
                    + bufSize * k) = []
              ∧ window s2
                  ((stateAfter fs name1 name2 deltas1 deltas2 diffs).file2.offset.toNat
                    + bufSize * k) = []))
      ∧ ∀ j, 1 ≤ j → j < k →
          windowDiff s1 s2
            ((stateAfter fs name1 name2 deltas1 deltas2 diffs).file1.offset.toNat + bufSize * j)
            ((stateAfter fs name1 name2 deltas1 deltas2 diffs).file2.offset.toNat + bufSize * j)
            = 0 :=
  scanLoop_exact_onStream s1 s2 (stateAfter fs name1 name2 deltas1 deltas2 diffs)
    (onStream_moves deltas1 (opened_onStream fs name1 s1 hfs1))
    (onStream_moves deltas2 (opened_onStream fs name2 s2 hfs2))

/-- Witness for C10: two copies of a 150-byte file, both views at offset
0; the windows one page ahead are equal and those two pages ahead are
empty, and the scan loop runs exactly twice. -/
theorem scanLoop_exact_witness :
    (∃ (k : Nat) (g2 : Globals), 1 ≤ k
        ∧ scanLoop k (stateAfter (oneFile (List.replicate 150 7)) [] [] [] [] ⟨0, []⟩) = some g2)
      ∧ scanLoop 1 (stateAfter (oneFile (List.replicate 150 7)) [] [] [] [] ⟨0, []⟩) = none
      ∧ (scanLoop 2 (stateAfter (oneFile (List.replicate 150 7)) [] [] [] [] ⟨0, []⟩)).isSome
          = true := by
  obtain ⟨k, g2, hk, hsome, _⟩ :=
    scanLoop_exact (oneFile (List.replicate 150 7)) [] [] (List.replicate 150 7)
      (List.replicate 150 7) rfl rfl [] [] ⟨0, []⟩
  exact ⟨⟨k, g2, hk, hsome k (le_refl k)⟩, by decide, by decide⟩

/-! ## The main program -/

theorem commandLoop_quit (fuel : Nat) (rest : List Command) (g : Globals) :
    commandLoop fuel (cmQuit :: rest) g = some ([], g) := by
  simp [commandLoop]

theorem commandLoop_step (fuel : Nat) (c : Command) (rest : List Command) (g g1 : Globals)
    (hq : c ≠ cmQuit) (hh : handleCmd fuel c g = some g1) :
    commandLoop fuel (c :: rest) g
      = (commandLoop fuel rest g1).map (fun r => (c :: r.1, r.2)) := by
  simp only [commandLoop, if_neg hq, hh]

theorem commandLoop_hang (fuel : Nat) (c : Command) (rest : List Command) (g : Globals)
    (hq : c ≠ cmQuit) (hh : handleCmd fuel c g = none) :
    commandLoop fuel (c :: rest) g = none := by
  simp only [commandLoop, if_neg hq, hh]

/-- The commands of the loop that are passed to `handleCmd` are those
before the first quit command. -/
theorem commandLoop_handled (fuel : Nat) :
    ∀ (keys : List Command) (g : Globals) (r : List Command × Globals),
      commandLoop fuel keys g = some r → r.1 = keys.takeWhile (fun c => decide (c ≠ cmQuit)) := by
  intro keys
  induction keys with
  | nil => intro g r h; simp [commandLoop] at h
  | cons c rest ih =>
    intro g r h
    by_cases hq : c = cmQuit
    · subst hq
      rw [commandLoop_quit] at h
      simp only [Option.some.injEq] at h
      subst h
      simp [List.takeWhile]
    · cases hh : handleCmd fuel c g with
      | none => rw [commandLoop_hang fuel c rest g hq hh] at h; simp at h
      | some g1 =>
        rw [commandLoop_step fuel c rest g g1 hq hh] at h
        cases hl : commandLoop fuel rest g1 with
        | none => rw [hl] at h; simp at h
        | some r1 =>
          rw [hl] at h
          simp only [Option.map_some', Option.some.injEq] at h
          subst h
          have := ih g1 r1 hl
          simp [List.takeWhile, hq, this]

/-- With three arguments and working windows, `main` is the command loop
run from `startState`, and it returns 0. -/
theorem main_eq (fuel : Nat) (fs : FileSystem) (prog arg1 arg2 : List Char)
    (keys : List Command) :
    main fuel fs true [prog, arg1, arg2] keys =
      (commandLoop fuel keys (startState fs arg1 arg2)).map
        (fun r => { status := 0, err := [], handled := r.1, globals := r.2 }) := by
  simp [main, initializeWindows]

/-- C11, as stated, fails: with a first path that cannot be opened, `main`
handles the command it is given and returns 0. -/
theorem open_failure_not_fatal :
    ¬ ∀ (fuel : Nat) (fs : FileSystem) (prog arg1 arg2 : List Char) (keys : List Command)
        (out : Exit),
        (fs (arg1.take (maxPath - 1)) = none ∨ fs (arg2.take (maxPath - 1)) = none) →
        main fuel fs true [prog, arg1, arg2] keys = some out →
        out.status = 1 ∧ out.handled = [] := by
  intro h
  have h0 := h 2 (fileAt ['b'] (List.replicate 150 7)) ['v'] ['a'] ['b']
    [cmmMove ||| cmmMoveBoth ||| cmmMovePage ||| cmmMoveForward, cmQuit]
    ((main 2 (fileAt ['b'] (List.replicate 150 7)) true [['v'], ['a'], ['b']]
      [cmmMove ||| cmmMoveBoth ||| cmmMovePage ||| cmmMoveForward, cmQuit]).getD
        ⟨0, [], [], Globals.initial⟩)
    (Or.inl (by decide)) (by decide)
  revert h0
  decide

/-- C11, amended: with three arguments and working windows, a path that
cannot be opened leaves its view without a stream and with valid length 0
when the command loop starts; `main` is then the command loop run from
that state: if the user quits at once it returns 0 having handled nothing,
and whenever it returns, it returns 0, has written nothing to `stderr`, and
has passed every command before the quit command to `handleCmd`. -/
theorem main_open_failure (fuel : Nat) (fs : FileSystem) (prog arg1 arg2 : List Char)
    (keys : List Command) :
    (fs (arg1.take (maxPath - 1)) = none →
        (startState fs arg1 arg2).file1.NoStream
          ∧ (startState fs arg1 arg2).file1.bufContents = 0)
      ∧ (fs (arg2.take (maxPath - 1)) = none →
          (startState fs arg1 arg2).file2.NoStream
            ∧ (startState fs arg1 arg2).file2.bufContents = 0)
      ∧ main fuel fs true [prog, arg1, arg2] (cmQuit :: keys)
          = some { status := 0, err := [], handled := [], globals := startState fs arg1 arg2 }
      ∧ ∀ out, main fuel fs true [prog, arg1, arg2] keys = some out →
          out.status = 0 ∧ out.err = []
            ∧ out.handled = keys.takeWhile (fun c => decide (c ≠ cmQuit)) := by
  refine ⟨fun h1 => ?_, fun h2 => ?_, ?_, ?_⟩
  · have hn := opened_noStream fs arg1 h1
    exact ⟨hn, hn.valid⟩
  · have hn := opened_noStream fs arg2 h2
    exact ⟨hn, hn.valid⟩
  · rw [main_eq, commandLoop_quit]
    rfl
  · intro out hout
    rw [main_eq] at hout
    cases hl : commandLoop fuel keys (startState fs arg1 arg2) with
    | none => rw [hl] at hout; simp at hout
    | some r =>
      rw [hl] at hout
      simp only [Option.map_some', Option.some.injEq] at hout
      subst hout
      exact ⟨rfl, rfl, commandLoop_handled fuel keys _ r hl⟩

/-- Witness for C11: the first path does not open, the user presses a key that maps to
no command and then quits; `main` returns 0 after handling that command. -/
theorem main_open_failure_witness :
    main 1 (fileAt ['b'] [1, 2, 3]) true [['v'], ['a'], ['b']] [cmNothing, cmQuit]
        = some { status := 0, err := [], handled := [cmNothing],
                 globals := startState (fileAt ['b'] [1, 2, 3]) ['a'] ['b'] }
      ∧ (startState (fileAt ['b'] [1, 2, 3]) ['a'] ['b']).file1.bufContents = 0 :=
  ⟨by decide,
   ((main_open_failure 1 (fileAt ['b'] [1, 2, 3]) ['v'] ['a'] ['b'] [cmNothing, cmQuit]).1
      (by decide)).2⟩

/-! ## Targets of a move command -/

/-- For a move command `handleCmd` applies the targeted moves with the
delta `moveStep cmd` and then runs the boundary-correction loop. -/
theorem handleCmd_move (fuel : Nat) (cmd : Command) (g : Globals) (hm : cmd &&& cmmMove ≠ 0) :
    handleCmd fuel cmd g = correctLoop fuel (applyMove cmd g) := by
  simp only [handleCmd, if_pos hm, Option.some_bind]
  rfl

theorem applyMove_top (cmd : Command) (g : Globals)
    (ht : cmd &&& cmmMoveTop ≠ 0) (hb : cmd &&& cmmMoveBottom = 0) :
    applyMove cmd g = { g with file1 := g.file1.move (moveStep cmd) } := by
  have hb2 : ¬ (cmd &&& cmmMoveBottom ≠ 0) := fun h => h hb
  simp only [applyMove, if_pos ht, if_neg hb2]

theorem applyMove_bottom (cmd : Command) (g : Globals)
    (ht : cmd &&& cmmMoveTop = 0) (hb : cmd &&& cmmMoveBottom ≠ 0) :
    applyMove cmd g = { g with file2 := g.file2.move (moveStep cmd) } := by
  have ht2 : ¬ (cmd &&& cmmMoveTop ≠ 0) := fun h => h ht
  simp only [applyMove, if_neg ht2, if_pos hb]

theorem applyMove_both (cmd : Command) (g : Globals)
    (ht : cmd &&& cmmMoveTop ≠ 0) (hb : cmd &&& cmmMoveBottom ≠ 0) :
    applyMove cmd g
      = { g with file1 := g.file1.move (moveStep cmd), file2 := g.file2.move (moveStep cmd) } := by
  simp only [applyMove, if_pos ht, if_pos hb]

/-- C12, as stated, fails: both files hold 10 bytes; after a bottom-only
page forward the bottom view is at offset 128 and empty; a top-only page
forward then empties the top view too, and the boundary correction steps
both views back, which takes the bottom view to offset 0. -/
theorem frozen_view_moved_by_correction :
    ¬ ∀ (fuel : Nat) (fs : FileSystem) (arg1 arg2 : List Char) (cmds : List Command)
        (g : Globals) (cmd : Command) (g2 : Globals),
        reachedBy fuel fs arg1 arg2 cmds = some g →
        cmd &&& cmmMove ≠ 0 → cmd &&& cmmMoveTop ≠ 0 → cmd &&& cmmMoveBottom = 0 →
        handleCmd fuel cmd g = some g2 →
        g2.file2.offset = g.file2.offset ∧ g2.file2.buffer = g.file2.buffer
          ∧ g2.file2.bufContents = g.file2.bufContents := by
  intro h
  have h0 := h 2 (oneFile (List.replicate 10 7)) [] []
    [cmmMove ||| cmmMoveBottom ||| cmmMovePage ||| cmmMoveForward]
    ((reachedBy 2 (oneFile (List.replicate 10 7)) [] []
      [cmmMove ||| cmmMoveBottom ||| cmmMovePage ||| cmmMoveForward]).getD Globals.initial)
    (cmmMove ||| cmmMoveTop ||| cmmMovePage ||| cmmMoveForward)
    ((handleCmd 2 (cmmMove ||| cmmMoveTop ||| cmmMovePage ||| cmmMoveForward)
      ((reachedBy 2 (oneFile (List.replicate 10 7)) [] []
        [cmmMove ||| cmmMoveBottom ||| cmmMovePage ||| cmmMoveForward]).getD
          Globals.initial)).getD Globals.initial)
    (by decide) (by decide) (by decide) (by decide) (by decide)
  revert h0
  decide

/-- C12, amended: for a top-only move command, if `compute` on the views
right after the move is not negative (so the boundary correction does not
run), `handleCmd` returns with the top view moved by `moveStep cmd` and the
bottom view exactly as it was; symmetrically for a bottom-only move
command. -/
theorem frozen_view_unchanged (fuel : Nat) (cmd : Command) (g : Globals)
    (hm : cmd &&& cmmMove ≠ 0) :
    (cmd &&& cmmMoveTop ≠ 0 → cmd &&& cmmMoveBottom = 0 →
        ¬ (g.diffs.compute (g.file1.move (moveStep cmd)) g.file2).1 < 0 →
        ∃ g2, handleCmd (fuel + 1) cmd g = some g2
          ∧ g2.file2 = g.file2 ∧ g2.file1 = g.file1.move (moveStep cmd))
      ∧ (cmd &&& cmmMoveTop = 0 → cmd &&& cmmMoveBottom ≠ 0 →
          ¬ (g.diffs.compute g.file1 (g.file2.move (moveStep cmd))).1 < 0 →
          ∃ g2, handleCmd (fuel + 1) cmd g = some g2
            ∧ g2.file1 = g.file1 ∧ g2.file2 = g.file2.move (moveStep cmd)) := by
  constructor
  · intro ht hb hc
    rw [handleCmd_move _ _ _ hm, applyMove_top cmd g ht hb]
    exact ⟨_, correctLoop_stop fuel _ hc, rfl, rfl⟩
  · intro ht hb hc
    rw [handleCmd_move _ _ _ hm, applyMove_bottom cmd g ht hb]
    exact ⟨_, correctLoop_stop fuel _ hc, rfl, rfl⟩

/-- Witness for C12: a 10-byte file on top and a 3-byte file below; a
top-only byte forward leaves the bottom view as `setFile` set it up. -/
theorem frozen_view_unchanged_witness :
    ∃ g2, handleCmd 1 (cmmMove ||| cmmMoveTop ||| cmmMoveByte ||| cmmMoveForward)
        (startState (fun n => if n = ['a'] then some (List.replicate 10 7) else some [1, 2, 3])
          ['a'] ['b']) = some g2
      ∧ g2.file2 = FileDisplay.opened (oneFile [1, 2, 3]) ['b']
      ∧ g2.file1.offset = 1 := by
  obtain ⟨g2, h1, h2, h3⟩ :=
    (frozen_view_unchanged 0 (cmmMove ||| cmmMoveTop ||| cmmMoveByte ||| cmmMoveForward)
      (startState (fun n => if n = ['a'] then some (List.replicate 10 7) else some [1, 2, 3])
        ['a'] ['b']) (by decide)).1 (by decide) (by decide) (by decide)
  refine ⟨g2, h1, ?_, ?_⟩
  · rw [h2]; decide
  · rw [h3]; decide

/-! ## Synchronized navigation -/

/-- The offset after a `move`, for any view. -/
theorem move_offset (d : FileDisplay) (step : Int) :
    (d.move step).offset = max (d.offset + step) 0 := by
  simp only [FileDisplay.move]
  split <;> omega

/-- The boundary-correction loop keeps equal offsets equal. -/
theorem correctLoop_offsets :
    ∀ (fuel : Nat) (g g2 : Globals), g.file1.offset = g.file2.offset →
      correctLoop fuel g = some g2 → g2.file1.offset = g2.file2.offset := by
  intro fuel
  induction fuel with
  | zero => intro g g2 _ h; simp [correctLoop] at h
  | succ n ih =>
    intro g g2 he h
    by_cases hlt : (g.diffs.compute g.file1 g.file2).1 < 0
    · rw [correctLoop_step n g hlt] at h
      refine ih _ g2 ?_ h
      show (g.file1.move _).offset = (g.file2.move _).offset
      rw [move_offset, move_offset, he]
    · rw [correctLoop_stop n g hlt] at h
      simp only [Option.some.injEq] at h
      subst h
      exact he

/-- The scan loop keeps equal offsets equal. -/
theorem scanLoop_offsets :
    ∀ (fuel : Nat) (g g2 : Globals), g.file1.offset = g.file2.offset →
      scanLoop fuel g = some g2 → g2.file1.offset = g2.file2.offset := by
  intro fuel
  induction fuel with
  | zero => intro g g2 _ h; simp [scanLoop] at h
  | succ n ih =>
    intro g g2 he h
    have hm : (g.file1.move bufSize).offset = (g.file2.move bufSize).offset := by
      rw [move_offset, move_offset, he]
    by_cases hz : (g.diffs.compute (g.file1.move bufSize) (g.file2.move bufSize)).1 = 0
    · rw [scanLoop_continue n g hz] at h
      exact ih _ g2 hm h
    · rw [scanLoop_stop n g hz] at h
      simp only [Option.some.injEq] at h
      subst h
      exact hm

/-- One synchronized command keeps equal offsets equal. -/
theorem handleCmd_offsets (fuel : Nat) (cmd : Command) (g g2 : Globals)
    (he : g.file1.offset = g.file2.offset) (hs : synchronized cmd)
    (h : handleCmd fuel cmd g = some g2) : g2.file1.offset = g2.file2.offset := by
  rcases hs with ⟨hm, ht, hb⟩ | hn
  · rw [handleCmd_move _ _ _ hm, applyMove_both cmd g ht hb] at h
    refine correctLoop_offsets fuel _ g2 ?_ h
    show (g.file1.move _).offset = (g.file2.move _).offset
    rw [move_offset, move_offset, he]
  · subst hn
    rw [handleCmd_nextDiff] at h
    cases hsc : scanLoop fuel g with
    | none => rw [hsc] at h; simp at h
    | some g1 =>
      rw [hsc] at h
      exact correctLoop_offsets fuel g1 g2 (scanLoop_offsets fuel g g1 he hsc) h

/-- A run of the command loop on synchronized commands keeps equal offsets
equal. -/
theorem commandLoop_offsets (fuel : Nat) :
    ∀ (keys : List Command) (g : Globals) (r : List Command × Globals),
      g.file1.offset = g.file2.offset →
      (∀ c, c ∈ keys → c ≠ cmQuit → synchronized c) →
      commandLoop fuel keys g = some r → r.2.file1.offset = r.2.file2.offset := by
  intro keys
  induction keys with
  | nil => intro g r _ _ h; simp [commandLoop] at h
  | cons c rest ih =>
    intro g r he hs h
    by_cases hq : c = cmQuit
    · subst hq
      rw [commandLoop_quit] at h
      simp only [Option.some.injEq] at h
      subst h
      exact he
    · cases hh : handleCmd fuel c g with
      | none => rw [commandLoop_hang fuel c rest g hq hh] at h; simp at h
      | some g1 =>
        rw [commandLoop_step fuel c rest g g1 hq hh] at h
        cases hl : commandLoop fuel rest g1 with
        | none => rw [hl] at h; simp at h
        | some r1 =>
          rw [hl] at h
          simp only [Option.map_some', Option.some.injEq] at h
          subst h
          exact ih g1 r1
            (handleCmd_offsets fuel c g g1 he (hs c (List.mem_cons_self _ _) hq) hh)
            (fun c2 hc2 hq2 => hs c2 (List.mem_cons_of_mem _ hc2) hq2) hl

theorem startState_offsets (fs : FileSystem) (arg1 arg2 : List Char) :
    (startState fs arg1 arg2).file1.offset = 0 ∧ (startState fs arg1 arg2).file2.offset = 0 :=
  ⟨rfl, rfl⟩

/-- More fuel does not change what the boundary-correction loop returns. -/
theorem correctLoop_mono :
    ∀ (fuel : Nat) (g g2 : Globals), correctLoop fuel g = some g2 →
      ∀ fuel2, fuel ≤ fuel2 → correctLoop fuel2 g = some g2 := by
  intro fuel
  induction fuel with
  | zero => intro g g2 h; simp [correctLoop] at h
  | succ n ih =>
    intro g g2 h fuel2 hle
    obtain ⟨m, rfl⟩ : ∃ m, fuel2 = m + 1 := ⟨fuel2 - 1, by omega⟩
    by_cases hlt : (g.diffs.compute g.file1 g.file2).1 < 0
    · rw [correctLoop_step n g hlt] at h
      rw [correctLoop_step m g hlt]
      exact ih _ g2 h m (by omega)
    · rw [correctLoop_stop n g hlt] at h
      rw [correctLoop_stop m g hlt]
      exact h

/-- With a non-empty stream the boundary-correction loop returns for every
large enough fuel, on views that are not both empty. -/
theorem correctLoop_returns (s1 s2 : List Byte) (hne : s1 ≠ [] ∨ s2 ≠ []) (g : Globals)
    (h1 : g.file1.OnStream s1) (h2 : g.file2.OnStream s2) :
    ∃ (fuel0 : Nat) (g2 : Globals), (∀ fuel, fuel0 ≤ fuel → correctLoop fuel g = some g2)
      ∧ g2.file1.OnStream s1 ∧ g2.file2.OnStream s2
      ∧ ¬ (g2.file1.bufContents = 0 ∧ g2.file2.bufContents = 0) := by
  have p1 := h1.offset_nonneg
  have p2 := h2.offset_nonneg
  obtain ⟨g2, hc, q1, q2, hnb, _⟩ := correctLoop_terminates s1 s2 hne
    (g.file1.offset.toNat + g.file2.offset.toNat) g h1 h2
    (by push_cast; omega) (by push_cast; omega)
  exact ⟨_, g2, fun fuel hf => correctLoop_mono _ g g2 hc fuel hf, q1, q2, hnb⟩

/-- The scan loop keeps the views on their streams. -/
theorem scanLoop_onStream (s1 s2 : List Byte) :
    ∀ (fuel : Nat) (g g2 : Globals), g.file1.OnStream s1 → g.file2.OnStream s2 →
      scanLoop fuel g = some g2 → g2.file1.OnStream s1 ∧ g2.file2.OnStream s2 := by
  intro fuel
  induction fuel with
  | zero => intro g g2 _ _ h; simp [scanLoop] at h
  | succ n ih =>
    intro g g2 h1 h2 h
    by_cases hz : (g.diffs.compute (g.file1.move bufSize) (g.file2.move bufSize)).1 = 0
    · rw [scanLoop_continue n g hz] at h
      exact ih _ g2 (onStream_move h1 _) (onStream_move h2 _) h
    · rw [scanLoop_stop n g hz] at h
      simp only [Option.some.injEq] at h
      subst h
      exact ⟨onStream_move h1 _, onStream_move h2 _⟩

/-- The targeted moves keep the views on their streams. -/
theorem applyMove_onStream (s1 s2 : List Byte) (cmd : Command) (g : Globals)
    (h1 : g.file1.OnStream s1) (h2 : g.file2.OnStream s2) :
    (applyMove cmd g).file1.OnStream s1 ∧ (applyMove cmd g).file2.OnStream s2 := by
  unfold applyMove
  by_cases ht : cmd &&& cmmMoveTop ≠ 0 <;> by_cases hb : cmd &&& cmmMoveBottom ≠ 0
  · simp only [if_pos ht, if_pos hb]; exact ⟨onStream_move h1 _, onStream_move h2 _⟩
  · simp only [if_pos ht, if_neg hb]; exact ⟨onStream_move h1 _, h2⟩
  · simp only [if_neg ht, if_pos hb]; exact ⟨h1, onStream_move h2 _⟩
  · simp only [if_neg ht, if_neg hb]; exact ⟨h1, h2⟩

/-- For a command that is neither a move command nor `cmNextDiff`,
`handleCmd` is the boundary-correction loop alone. -/
theorem handleCmd_other (fuel : Nat) (cmd : Command) (g : Globals)
    (hm : ¬ cmd &&& cmmMove ≠ 0) (hn : cmd ≠ cmNextDiff) :
    handleCmd fuel cmd g = correctLoop fuel g := by
  simp only [handleCmd, if_neg hm, if_neg hn, Option.some_bind]

/-- With both views on streams of which at least one is not empty,
`handleCmd` returns for every command, given enough fuel, on views that are
not both empty. -/
theorem handleCmd_returns (s1 s2 : List Byte) (hne : s1 ≠ [] ∨ s2 ≠ []) (g : Globals)
    (h1 : g.file1.OnStream s1) (h2 : g.file2.OnStream s2) (cmd : Command) :
    ∃ (fuel0 : Nat) (g2 : Globals), (∀ fuel, fuel0 ≤ fuel → handleCmd fuel cmd g = some g2)
      ∧ g2.file1.OnStream s1 ∧ g2.file2.OnStream s2
      ∧ ¬ (g2.file1.bufContents = 0 ∧ g2.file2.bufContents = 0) := by
  by_cases hm : cmd &&& cmmMove ≠ 0
  · obtain ⟨a1, a2⟩ := applyMove_onStream s1 s2 cmd g h1 h2
    obtain ⟨fuel0, g2, hc, q⟩ := correctLoop_returns s1 s2 hne (applyMove cmd g) a1 a2
    exact ⟨fuel0, g2, fun fuel hf => by rw [handleCmd_move _ _ _ hm]; exact hc fuel hf, q⟩
  · by_cases hn : cmd = cmNextDiff
    · subst hn
      obtain ⟨k, g1, _, hsome, _⟩ := scanLoop_exact_onStream s1 s2 g h1 h2
      obtain ⟨a1, a2⟩ := scanLoop_onStream s1 s2 k g g1 h1 h2 (hsome k (le_refl k))
      obtain ⟨fuel0, g2, hc, q⟩ := correctLoop_returns s1 s2 hne g1 a1 a2
      refine ⟨max k fuel0, g2, fun fuel hf => ?_, q⟩
      rw [handleCmd_nextDiff, hsome fuel (le_trans (le_max_left _ _) hf)]
      exact hc fuel (le_trans (le_max_right _ _) hf)
    · obtain ⟨fuel0, g2, hc, q⟩ := correctLoop_returns s1 s2 hne g h1 h2
      exact ⟨fuel0, g2, fun fuel hf => by rw [handleCmd_other _ _ _ hm hn]; exact hc fuel hf, q⟩

/-- With both views on streams of which at least one is not empty, the
command loop returns for every sequence of commands followed by the quit
command, given enough fuel. -/
theorem commandLoop_returns (s1 s2 : List Byte) (hne : s1 ≠ [] ∨ s2 ≠ []) :
    ∀ (cmds : List Command) (g : Globals), g.file1.OnStream s1 → g.file2.OnStream s2 →
      ∃ (fuel0 : Nat) (r : List Command × Globals),
        (∀ fuel, fuel0 ≤ fuel → commandLoop fuel (cmds ++ [cmQuit]) g = some r)
          ∧ r.2.file1.OnStream s1 ∧ r.2.file2.OnStream s2 := by
  intro cmds
  induction cmds with
  | nil =>
    intro g h1 h2
    exact ⟨0, ([], g), fun fuel _ => commandLoop_quit fuel [] g, h1, h2⟩
  | cons c rest ih =>
    intro g h1 h2
    by_cases hq : c = cmQuit
    · subst hq
      exact ⟨0, ([], g), fun fuel _ => commandLoop_quit fuel _ g, h1, h2⟩
    · obtain ⟨fuel0, g1, hh, q1, q2, _⟩ := handleCmd_returns s1 s2 hne g h1 h2 c
      obtain ⟨fuel1, r, hl, p1, p2⟩ := ih g1 q1 q2
      refine ⟨max fuel0 fuel1, (c :: r.1, r.2), fun fuel hf => ?_, p1, p2⟩
      rw [List.cons_append,
        commandLoop_step fuel c _ g g1 hq (hh fuel (le_trans (le_max_left _ _) hf)),
        hl fuel (le_trans (le_max_right _ _) hf)]
      rfl

/-- C13: a synchronized command (a move command that targets both views, or
`cmNextDiff`) handled on views with equal offsets leaves the offsets equal,
boundary correction included; from startup, where both offsets are 0, every
state reached by handling synchronized commands has equal offsets; and such
states are reached: when both paths open and at least one file is not
empty, every sequence of commands is handled to the end, given enough
fuel. -/
theorem synchronized_keeps_aligned (fuel : Nat) (fs : FileSystem) (arg1 arg2 : List Char) :
    (∀ (cmd : Command) (g g2 : Globals), g.file1.offset = g.file2.offset → synchronized cmd →
        handleCmd fuel cmd g = some g2 → g2.file1.offset = g2.file2.offset)
      ∧ (∀ (cmds : List Command) (g : Globals), (∀ c, c ∈ cmds → synchronized c) →
          reachedBy fuel fs arg1 arg2 cmds = some g → g.file1.offset = g.file2.offset)
      ∧ (∀ (s1 s2 : List Byte), fs (arg1.take (maxPath - 1)) = some s1 →
          fs (arg2.take (maxPath - 1)) = some s2 → (s1 ≠ [] ∨ s2 ≠ []) →
          ∀ (cmds : List Command), ∃ fuel0, ∀ fuel2, fuel0 ≤ fuel2 →
            (reachedBy fuel2 fs arg1 arg2 cmds).isSome = true) := by
  refine ⟨fun cmd g g2 he hs h => handleCmd_offsets fuel cmd g g2 he hs h, ?_, ?_⟩
  · intro cmds g hs h
    unfold reachedBy at h
    cases hl : commandLoop fuel (cmds ++ [cmQuit]) (startState fs arg1 arg2) with
    | none => rw [hl] at h; simp at h
    | some r =>
      rw [hl] at h
      simp only [Option.map_some', Option.some.injEq] at h
      subst h
      refine commandLoop_offsets fuel _ _ r ?_ ?_ hl
      · rw [(startState_offsets fs arg1 arg2).1, (startState_offsets fs arg1 arg2).2]
      · intro c hc hq
        rcases List.mem_append.mp hc with hc1 | hc1
        · exact hs c hc1
        · exact absurd (List.mem_singleton.mp hc1) hq
  · intro s1 s2 hfs1 hfs2 hne cmds
    obtain ⟨fuel0, r, hl, _⟩ := commandLoop_returns s1 s2 hne cmds (startState fs arg1 arg2)
      (opened_onStream fs arg1 s1 hfs1) (opened_onStream fs arg2 s2 hfs2)
    refine ⟨fuel0, fun fuel2 hf => ?_⟩
    unfold reachedBy
    rw [hl fuel2 hf]
    rfl

/-- Witness for C13: two copies of a 150-byte file; page forward, next
difference (which runs past the end and is corrected back) and line
backward leave both views at the same offset. -/
theorem synchronized_keeps_aligned_witness :
    ∃ g, reachedBy 3 (oneFile (List.replicate 150 7)) [] []
          [cmmMove ||| cmmMoveBoth ||| cmmMovePage ||| cmmMoveForward, cmNextDiff,
           cmmMove ||| cmmMoveBoth ||| cmmMoveLine] = some g
      ∧ g.file1.offset = g.file2.offset ∧ g.file1.offset = 128 := by
  have hr : (reachedBy 3 (oneFile (List.replicate 150 7)) [] []
      [cmmMove ||| cmmMoveBoth ||| cmmMovePage ||| cmmMoveForward, cmNextDiff,
       cmmMove ||| cmmMoveBoth ||| cmmMoveLine]).isSome = true := by decide
  obtain ⟨g, hg⟩ := Option.isSome_iff_exists.mp hr
  refine ⟨g, hg, ?_, ?_⟩
  · exact (synchronized_keeps_aligned 3 (oneFile (List.replicate 150 7)) [] []).2.1 _ g
      (by decide) hg
  · have : (reachedBy 3 (oneFile (List.replicate 150 7)) [] []
      [cmmMove ||| cmmMoveBoth ||| cmmMovePage ||| cmmMoveForward, cmNextDiff,
       cmmMove ||| cmmMoveBoth ||| cmmMoveLine]).map (fun g => g.file1.offset) = some 128 := by
      decide
    rw [hg] at this
    simpa using this

/-- C14: for a move command, `handleCmd` calls `move` on each targeted view
with the delta `moveStep cmd`, which is the entry of `steps` selected by the
size bits times the direction: 1, 16 (`lineWidth`) or 128
(`bufSize - lineWidth`) for byte, line or page when the forward bit is set,
and -1, -16 or -128 when it is clear. -/
theorem move_delta (fuel : Nat) (cmd : Command) (g : Globals) (hm : cmd &&& cmmMove ≠ 0) :
    handleCmd fuel cmd g
        = correctLoop fuel
            { file1 := if cmd &&& cmmMoveTop ≠ 0 then g.file1.move (moveStep cmd) else g.file1
              file2 := if cmd &&& cmmMoveBottom ≠ 0 then g.file2.move (moveStep cmd)
                       else g.file2
              diffs := g.diffs }
      ∧ moveStep cmd
          = steps.getD (cmd &&& cmmMoveSize) 0 * (if cmd &&& cmmMoveForward ≠ 0 then 1 else -1)
      ∧ (cmd &&& cmmMoveForward ≠ 0 →
          (cmd &&& cmmMoveSize = cmmMoveByte → moveStep cmd = 1)
            ∧ (cmd &&& cmmMoveSize = cmmMoveLine → moveStep cmd = 16)
            ∧ (cmd &&& cmmMoveSize = cmmMovePage → moveStep cmd = 128))
      ∧ (cmd &&& cmmMoveForward = 0 →
          (cmd &&& cmmMoveSize = cmmMoveByte → moveStep cmd = -1)
            ∧ (cmd &&& cmmMoveSize = cmmMoveLine → moveStep cmd = -16)
            ∧ (cmd &&& cmmMoveSize = cmmMovePage → moveStep cmd = -128))
      ∧ (16 : Int) = lineWidth ∧ (128 : Int) = (bufSize : Int) - lineWidth := by
  refine ⟨?_, ?_, ?_, ?_, by decide, by decide⟩
  · rw [handleCmd_move _ _ _ hm]
    congr 1
    unfold applyMove
    by_cases ht : cmd &&& cmmMoveTop ≠ 0 <;> by_cases hb : cmd &&& cmmMoveBottom ≠ 0
    · simp only [if_pos ht, if_pos hb]
    · simp only [if_pos ht, if_neg hb]
    · simp only [if_neg ht, if_pos hb]
    · simp only [if_neg ht, if_neg hb]
  · unfold moveStep
    by_cases hf : cmd &&& cmmMoveForward = 0
    · have hf2 : ¬ (cmd &&& cmmMoveForward ≠ 0) := fun h => h hf
      simp only [if_pos hf, if_neg hf2]
    · simp only [if_neg hf, if_pos hf, mul_one]
  · intro hf
    unfold moveStep
    simp only [if_neg hf]
    refine ⟨fun h => ?_, fun h => ?_, fun h => ?_⟩ <;> rw [h] <;> decide
  · intro hf
    unfold moveStep
    simp only [if_pos hf]
    refine ⟨fun h => ?_, fun h => ?_, fun h => ?_⟩ <;> rw [h] <;> decide

/-- Witness for C14: the command of the PgUp key moves both views by -128. -/
theorem move_delta_witness :
    moveStep (cmmMove ||| cmmMoveBoth ||| cmmMovePage) = -128
      ∧ handleCmd 1 (cmmMove ||| cmmMoveBoth ||| cmmMovePage)
          (startState (oneFile (List.replicate 150 7)) [] [])
        = correctLoop 1
            { file1 := (FileDisplay.opened (oneFile (List.replicate 150 7)) []).move (-128)
              file2 := (FileDisplay.opened (oneFile (List.replicate 150 7)) []).move (-128)
              diffs := (startState (oneFile (List.replicate 150 7)) [] []).diffs } := by
  have h := move_delta 1 (cmmMove ||| cmmMoveBoth ||| cmmMovePage)
    (startState (oneFile (List.replicate 150 7)) [] []) (by decide)
  have e : moveStep (cmmMove ||| cmmMoveBoth ||| cmmMovePage) = -128 :=
    (h.2.2.2.1 (by decide)).2.2 (by decide)
  refine ⟨e, ?_⟩
  rw [h.1]
  rfl

/-! ## Recovery after an empty read -/

/-- C15: on a view bound to a stream by `setFile` and moved any number of
times, a state whose last read returned 0 bytes has the stream in its
failed state, and the next `move`, to the offset `p`, yields the valid
length and the valid bytes that a freshly opened view moved to `p` has,
with a positive valid length when `p` is inside the stream; the outcome
depends on `p` and the stream only. -/
theorem move_after_empty_read (fs : FileSystem) (name : List Char) (s : List Byte)
    (hfs : fs (name.take (maxPath - 1)) = some s) (deltas : List Int) (delta : Int) :
    (((FileDisplay.opened fs name).moves deltas).bufContents = 0 →
        ((FileDisplay.opened fs name).moves deltas).file.fail = true)
      ∧ ((FileDisplay.opened fs name).move
            (((FileDisplay.opened fs name).moves deltas).move delta).offset).offset
          = (((FileDisplay.opened fs name).moves deltas).move delta).offset
      ∧ (((FileDisplay.opened fs name).moves deltas).move delta).bufContents
          = ((FileDisplay.opened fs name).move
              (((FileDisplay.opened fs name).moves deltas).move delta).offset).bufContents
      ∧ (((FileDisplay.opened fs name).moves deltas).move delta).buffer.take
            (((FileDisplay.opened fs name).moves deltas).move delta).bufContents.toNat
          = ((FileDisplay.opened fs name).move
              (((FileDisplay.opened fs name).moves deltas).move delta).offset).buffer.take
              (((FileDisplay.opened fs name).moves deltas).move delta).bufContents.toNat
      ∧ ((((FileDisplay.opened fs name).moves deltas).move delta).offset < s.length →
          0 < (((FileDisplay.opened fs name).moves deltas).move delta).bufContents) := by
  have h0 := opened_onStream fs name s hfs
  have hd := onStream_moves deltas h0
  have hm := onStream_move hd delta
  have sp := onStream_move_spec hd delta
  have hp := hm.offset_nonneg
  have sf := onStream_move_spec h0 (((FileDisplay.opened fs name).moves deltas).move delta).offset
  have hoff : ((FileDisplay.opened fs name).move
      (((FileDisplay.opened fs name).moves deltas).move delta).offset).offset
      = (((FileDisplay.opened fs name).moves deltas).move delta).offset := by
    have e0 : (FileDisplay.opened fs name).offset = 0 := rfl
    rw [sf.1, e0]
    omega
  have hbc : (((FileDisplay.opened fs name).moves deltas).move delta).bufContents
      = ((FileDisplay.opened fs name).move
          (((FileDisplay.opened fs name).moves deltas).move delta).offset).bufContents := by
    rw [sp.2.1, sf.2.1, hoff]
  refine ⟨fun hz => ?_, hoff, hbc, ?_, fun hlt => ?_⟩
  · have hv := hd.valid
    have hf := hd.failbit
    have hb : bufSize = 144 := rfl
    have hne : (window s ((FileDisplay.opened fs name).moves deltas).offset.toNat).length
        ≠ bufSize := by omega
    rw [ifstream.fail, hf, decide_eq_true hne]
    rfl
  · rw [sp.2.2]
    conv_rhs => rw [hbc, sf.2.2, hoff, ← hbc]
  · rw [sp.2.1]
    have hb : bufSize = 144 := rfl
    omega

/-- Witness for C15: a 3-byte stream; the view is moved to offset 200, where
the read returns nothing, and then back by 199 to offset 1. -/
theorem move_after_empty_read_witness :
    ((FileDisplay.opened (oneFile [1, 2, 3]) []).moves [200]).bufContents = 0
      ∧ ((FileDisplay.opened (oneFile [1, 2, 3]) []).moves [200]).file.fail = true
      ∧ (((FileDisplay.opened (oneFile [1, 2, 3]) []).moves [200]).move (-199)).bufContents
          = ((FileDisplay.opened (oneFile [1, 2, 3]) []).move 1).bufContents
      ∧ ((FileDisplay.opened (oneFile [1, 2, 3]) []).move 1).buffer.take 2 = [2, 3] := by
  have h := move_after_empty_read (oneFile [1, 2, 3]) [] [1, 2, 3] rfl [200] (-199)
  have e : (((FileDisplay.opened (oneFile [1, 2, 3]) []).moves [200]).move (-199)).offset = 1 := by
    decide
  rw [e] at h
  exact ⟨by decide, h.1 (by decide), h.2.2.1, by decide⟩

/-! ## The state handleCmd returns -/

/-- The table `compute` produces does not depend on the `Difference` object
it is called on. -/
theorem compute_table_indep (self other : Difference) (A B : FileDisplay) :
    (self.compute A B).2.table = (other.compute A B).2.table := by
  simp only [Difference.compute]
  split
  · rfl
  · split <;> rfl

/-- What the boundary-correction loop leaves behind when it ends: views with
non-negative valid lengths, and a `Difference` object produced by a
`compute` on them that did not return a negative value. -/
theorem correctLoop_result :
    ∀ (fuel : Nat) (g g2 : Globals), 0 ≤ g.file1.bufContents → 0 ≤ g.file2.bufContents →
      correctLoop fuel g = some g2 →
      0 ≤ g2.file1.bufContents ∧ 0 ≤ g2.file2.bufContents
        ∧ ∃ self : Difference, g2.diffs = (self.compute g2.file1 g2.file2).2
            ∧ ¬ (self.compute g2.file1 g2.file2).1 < 0 := by
  intro fuel
  induction fuel with
  | zero => intro g g2 _ _ h; simp [correctLoop] at h
  | succ n ih =>
    intro g g2 hb1 hb2 h
    by_cases hlt : (g.diffs.compute g.file1 g.file2).1 < 0
    · rw [correctLoop_step n g hlt] at h
      exact ih _ g2 (move_bufContents_nonneg _ _) (move_bufContents_nonneg _ _) h
    · rw [correctLoop_stop n g hlt] at h
      simp only [Option.some.injEq] at h
      subst h
      exact ⟨hb1, hb2, g.diffs, rfl, hlt⟩

/-- The targeted moves keep the valid lengths non-negative. -/
theorem applyMove_nonneg (cmd : Command) (g : Globals)
    (hb1 : 0 ≤ g.file1.bufContents) (hb2 : 0 ≤ g.file2.bufContents) :
    0 ≤ (applyMove cmd g).file1.bufContents ∧ 0 ≤ (applyMove cmd g).file2.bufContents := by
  unfold applyMove
  by_cases ht : cmd &&& cmmMoveTop ≠ 0 <;> by_cases hb : cmd &&& cmmMoveBottom ≠ 0
  · simp only [if_pos ht, if_pos hb]
    exact ⟨move_bufContents_nonneg _ _, move_bufContents_nonneg _ _⟩
  · simp only [if_pos ht, if_neg hb]; exact ⟨move_bufContents_nonneg _ _, hb2⟩
  · simp only [if_neg ht, if_pos hb]; exact ⟨hb1, move_bufContents_nonneg _ _⟩
  · simp only [if_neg ht, if_neg hb]; exact ⟨hb1, hb2⟩

/-- Whatever the command, a `handleCmd` that returns has ended its
boundary-correction loop on the views it returns. -/
theorem handleCmd_result (fuel : Nat) (cmd : Command) (g g2 : Globals)
    (hb1 : 0 ≤ g.file1.bufContents) (hb2 : 0 ≤ g.file2.bufContents)
    (h : handleCmd fuel cmd g = some g2) :
    0 ≤ g2.file1.bufContents ∧ 0 ≤ g2.file2.bufContents
      ∧ ∃ self : Difference, g2.diffs = (self.compute g2.file1 g2.file2).2
          ∧ ¬ (self.compute g2.file1 g2.file2).1 < 0 := by
  by_cases hm : cmd &&& cmmMove ≠ 0
  · rw [handleCmd_move _ _ _ hm] at h
    obtain ⟨a1, a2⟩ := applyMove_nonneg cmd g hb1 hb2
    exact correctLoop_result fuel _ g2 a1 a2 h
  · by_cases hn : cmd = cmNextDiff
    · subst hn
      rw [handleCmd_nextDiff] at h
      cases hsc : scanLoop fuel g with
      | none => rw [hsc] at h; simp at h
      | some g1 =>
        rw [hsc] at h
        obtain ⟨a1, a2, _⟩ := scanLoop_result fuel g g1 hsc
        exact correctLoop_result fuel g1 g2 a1 a2 h
    · rw [handleCmd_other _ _ _ hm hn] at h
      exact correctLoop_result fuel g g2 hb1 hb2 h

/-- C16: whenever `handleCmd` returns, for any command, from a state with
non-negative valid lengths, the stored table and `getNumDiffs` are those
that `compute` (on any `Difference` object) gives for the two views as they
are on return, and at least one of the views has a positive valid length. -/
theorem handleCmd_diffs_current (fuel : Nat) (cmd : Command) (g g2 : Globals)
    (hb1 : 0 ≤ g.file1.bufContents) (hb2 : 0 ≤ g.file2.bufContents)
    (h : handleCmd fuel cmd g = some g2) :
    (∀ d0 : Difference,
        g2.diffs.table = (d0.compute g2.file1 g2.file2).2.table
          ∧ g2.diffs.getNumDiffs = (d0.compute g2.file1 g2.file2).1)
      ∧ (0 < g2.file1.bufContents ∨ 0 < g2.file2.bufContents) := by
  obtain ⟨c1, c2, self, hd, hnl⟩ := handleCmd_result fuel cmd g g2 hb1 hb2 h
  have hns : (self.compute g2.file1 g2.file2).1 ≠ -1 := by omega
  refine ⟨fun d0 => ⟨?_, ?_⟩, ?_⟩
  · rw [hd]; exact compute_table_indep self d0 _ _
  · rw [Difference.getNumDiffs, hd, compute_numDiffs self _ _ hns]
    exact compute_fst_indep self d0 _ _
  · rcases compute_fst_cases self g2.file1 g2.file2 c1 c2 with hc | hc
    · omega
    · have := hc.2
      omega

/-- Witness for C16: two copies of a 150-byte file; `cmNextDiff` scans past
the end and is corrected back twice, to offset 32, where 118 equal bytes
remain. -/
theorem handleCmd_diffs_current_witness :
    ∃ g2, handleCmd 3 cmNextDiff (startState (oneFile (List.replicate 150 7)) [] []) = some g2
      ∧ g2.diffs.getNumDiffs = 0 ∧ g2.file1.bufContents = 118 ∧ g2.file1.offset = 32
      ∧ ∀ d0 : Difference, g2.diffs.table = (d0.compute g2.file1 g2.file2).2.table := by
  have hr : (handleCmd 3 cmNextDiff
      (startState (oneFile (List.replicate 150 7)) [] [])).isSome = true := by decide
  obtain ⟨g2, hg⟩ := Option.isSome_iff_exists.mp hr
  have h := handleCmd_diffs_current 3 cmNextDiff
    (startState (oneFile (List.replicate 150 7)) [] []) g2 (by decide) (by decide) hg
  have hv : (handleCmd 3 cmNextDiff (startState (oneFile (List.replicate 150 7)) [] [])).map
      (fun g => (g.diffs.getNumDiffs, g.file1.bufContents, g.file1.offset))
      = some (0, 118, 32) := by decide
  rw [hg] at hv
  simp only [Option.map_some', Option.some.injEq, Prod.mk.injEq] at hv
  exact ⟨g2, hg, hv.1, hv.2.1, hv.2.2, fun d0 => (h.1 d0).1⟩

/-- C17, at the failing input: a 5-byte file against an empty file; the
`compute` of `main` stores 5 in `numDiffs`; after a page forward both views
are empty, `compute` returns -1 without assigning `numDiffs`, and
`getNumDiffs` still gives 5 although this call found no difference. -/
theorem compute_numDiffs_stale :
    (startState (twoFiles ['a'] [1, 2, 3, 4, 5] []) ['a'] ['b']).diffs.getNumDiffs = 5
      ∧ (((startState (twoFiles ['a'] [1, 2, 3, 4, 5] []) ['a'] ['b']).file1.move 128).bufContents = 0
      ∧ ((startState (twoFiles ['a'] [1, 2, 3, 4, 5] []) ['a'] ['b']).file2.move 128).bufContents = 0)
      ∧ ((startState (twoFiles ['a'] [1, 2, 3, 4, 5] []) ['a'] ['b']).diffs.compute
          ((startState (twoFiles ['a'] [1, 2, 3, 4, 5] []) ['a'] ['b']).file1.move 128)
          ((startState (twoFiles ['a'] [1, 2, 3, 4, 5] []) ['a'] ['b']).file2.move 128)).1 = -1
      ∧ ((startState (twoFiles ['a'] [1, 2, 3, 4, 5] []) ['a'] ['b']).diffs.compute
          ((startState (twoFiles ['a'] [1, 2, 3, 4, 5] []) ['a'] ['b']).file1.move 128)
          ((startState (twoFiles ['a'] [1, 2, 3, 4, 5] []) ['a'] ['b']).file2.move 128)).2.getNumDiffs
          = 5
      ∧ ((startState (twoFiles ['a'] [1, 2, 3, 4, 5] []) ['a'] ['b']).diffs.compute
          ((startState (twoFiles ['a'] [1, 2, 3, 4, 5] []) ['a'] ['b']).file1.move 128)
          ((startState (twoFiles ['a'] [1, 2, 3, 4, 5] []) ['a'] ['b']).file2.move 128)).2.table
          = List.replicate bufSize 0 := by
  decide

/-! ## Symmetry and bounds of compute -/

theorem compareBody_comm (b1 b2 : List Byte) : compareBody b1 b2 = compareBody b2 b1 := by
  funext i s
  unfold compareBody
  by_cases h : b1.getD i 0 = b2.getD i 0
  · rw [if_neg (fun hh => hh h), if_neg (fun hh => hh h.symm)]
  · rw [if_pos h, if_pos (fun hh => h hh.symm)]

/-- C18: `compute` gives the same return value and the same table, indeed
the same object, when its two views are exchanged. -/
theorem compute_symm (self : Difference) (A B : FileDisplay) :
    (self.compute A B).1 = (self.compute B A).1
      ∧ (self.compute A B).2.table = (self.compute B A).2.table
      ∧ self.compute A B = self.compute B A := by
  have h : self.compute A B = self.compute B A := by
    unfold Difference.compute
    rw [compareBody_comm A.buffer B.buffer, min_comm A.bufContents B.bufContents,
      max_comm A.bufContents B.bufContents]
  exact ⟨by rw [h], by rw [h], h⟩

theorem tail_length (size : Int) :
    ∀ (fuel i : Nat) (t : List Byte), (forLoop size tailBody fuel i t).2.length = t.length := by
  intro fuel
  induction fuel with
  | zero => intro i t; rfl
  | succ n ih =>
    intro i t
    simp only [forLoop]
    split
    · rw [ih]; simp [tailBody]
    · rfl

/-- The table `compute` leaves has `bufSize` entries. -/
theorem compute_table_length (self : Difference) (A B : FileDisplay) :
    (self.compute A B).2.table.length = bufSize := by
  have hl := compare_length A.buffer B.buffer (min A.bufContents B.bufContents)
    (min A.bufContents B.bufContents).toNat 0 (List.replicate bufSize 0) 0
  rw [List.length_replicate] at hl
  simp only [Difference.compute]
  split
  · simp only []
    rw [tail_length, hl]
  · split
    · exact hl
    · exact hl

/-- Counting the entries of a list that satisfy `p` is counting the indices
at which the entry satisfies `p`. -/
theorem countP_eq_countP_range (p : Byte → Bool) :
    ∀ l : List Byte, l.countP p = (List.range l.length).countP (fun i => p (l.getD i 0)) := by
  intro l
  induction l with
  | nil => rfl
  | cons a t ih =>
    rw [List.length_cons, List.range_succ_eq_map, List.countP_cons, List.countP_cons,
      List.countP_map, ih]
    rfl

/-- Counting over `[0, n)` a predicate that, for `m ≤ M ≤ n`, agrees with `q`
below `m`, holds on `[m, M)` and fails from `M` on. -/
theorem countP_range_split (P q : Nat → Bool) (m M n : Nat) (h1 : m ≤ M) (h2 : M ≤ n)
    (hlow : ∀ i, i < m → P i = q i) (hmid : ∀ i, m ≤ i → i < M → P i = true)
    (hhigh : ∀ i, M ≤ i → i < n → P i = false) :
    (List.range n).countP P = (List.range m).countP q + (M - m) := by
  have e : List.range n
      = List.range' 0 m ++ (List.range' (0 + m) (M - m) ++ List.range' (0 + m + (M - m)) (n - M)) := by
    rw [List.range_eq_range', List.range'_append_1, List.range'_append_1]
    congr 1
    omega
  rw [e, List.countP_append, List.countP_append, ← List.range_eq_range']
  have c1 : (List.range m).countP P = (List.range m).countP q := by
    apply List.countP_congr
    intro i hi
    rw [hlow i (List.mem_range.mp hi)]
  have c2 : (List.range' (0 + m) (M - m)).countP P = M - m := by
    have := (List.countP_eq_length (p := P) (l := List.range' (0 + m) (M - m))).mpr (by
      intro i hi
      have := List.mem_range'_1.mp hi
      exact hmid i (by omega) (by omega))
    rw [this, List.length_range']
  have c3 : (List.range' (0 + m + (M - m)) (n - M)).countP P = 0 := by
    apply List.countP_eq_zero.mpr
    intro i hi
    have := List.mem_range'_1.mp hi
    rw [hhigh i (by omega) (by omega)]
    simp
  rw [c1, c2, c3]
  rfl

/-- The number of marked positions after `compute`, for valid lengths
between 0 and `bufSize`. -/
theorem compute_numMarked (self : Difference) (A B : FileDisplay)
    (hA0 : 0 ≤ A.bufContents) (hA1 : A.bufContents ≤ bufSize)
    (hB0 : 0 ≤ B.bufContents) (hB1 : B.bufContents ≤ bufSize) :
    (self.compute A B).2.numMarked
      = numDiffering A B (min A.bufContents B.bufContents).toNat
        + ((max A.bufContents B.bufContents).toNat
            - (min A.bufContents B.bufContents).toNat) := by
  unfold Difference.numMarked numDiffering
  rw [countP_eq_countP_range, compute_table_length]
  have hT : (Boolean.True : Byte) ≠ 0 := by decide
  apply countP_range_split _ _ _ _ _ (by omega) (by omega)
  · intro i hi
    rw [compute_table_getD self A B hA0 hB0 i (by omega)]
    by_cases hd : A.buffer.getD i 0 ≠ B.buffer.getD i 0
    · rw [if_pos (Or.inl ⟨by omega, hd⟩), decide_eq_true hT, decide_eq_true hd]
    · rw [if_neg (by rintro (hh | hh); exact hd hh.2; omega), decide_eq_false hd]
      decide
  · intro i hi1 hi2
    rw [compute_table_getD self A B hA0 hB0 i (by omega),
      if_pos (Or.inr ⟨by omega, by omega⟩), decide_eq_true hT]
  · intro i hi1 hi2
    rw [compute_table_getD self A B hA0 hB0 i hi2,
      if_neg (by rintro (hh | hh) <;> omega)]
    decide

theorem numDiffering_le (A B : FileDisplay) (n : Nat) : numDiffering A B n ≤ n := by
  unfold numDiffering
  have := List.countP_le_length (fun i => decide (A.buffer.getD i 0 ≠ B.buffer.getD i 0))
    (l := List.range n)
  rwa [List.length_range] at this

/-- C19: when `compute` returns a value `d` other than the sentinel for
views with valid lengths between 0 and `bufSize`, `d` is the number of
marked positions of the table, and
`|vA - vB| ≤ d ≤ max vA vB ≤ bufSize`. -/
theorem compute_bounds (self : Difference) (A B : FileDisplay)
    (hA0 : 0 ≤ A.bufContents) (hA1 : A.bufContents ≤ bufSize)
    (hB0 : 0 ≤ B.bufContents) (hB1 : B.bufContents ≤ bufSize)
    (hns : (self.compute A B).1 ≠ -1) :
    (self.compute A B).1 = ((self.compute A B).2.numMarked : Int)
      ∧ |A.bufContents - B.bufContents| ≤ (self.compute A B).1
      ∧ (self.compute A B).1 ≤ max A.bufContents B.bufContents
      ∧ max A.bufContents B.bufContents ≤ bufSize := by
  have hnb : ¬ (A.bufContents = 0 ∧ B.bufContents = 0) := by
    rcases compute_fst_cases self A B hA0 hB0 with hc | hc
    · exact absurd hc.1 hns
    · exact hc.2
  have hv := compute_fst self A B hA0 hB0
  rw [if_neg hnb] at hv
  have hm := compute_numMarked self A B hA0 hA1 hB0 hB1
  have hle := numDiffering_le A B (min A.bufContents B.bufContents).toNat
  have habs : |A.bufContents - B.bufContents|
      = max A.bufContents B.bufContents - min A.bufContents B.bufContents := by
    rcases le_total A.bufContents B.bufContents with h | h
    · rw [max_eq_right h, min_eq_left h, abs_sub_comm, abs_of_nonneg (by omega)]
    · rw [max_eq_left h, min_eq_right h, abs_of_nonneg (by omega)]
  rw [habs] at hv
  rw [habs]
  refine ⟨?_, ?_, ?_, ?_⟩
  · rw [hv, hm]; push_cast; omega
  · rw [hv]; omega
  · rw [hv]; omega
  · omega

/-- Witness for C19: ten zero bytes against ten 0xFF bytes give 10, and ten
positions are marked. -/
theorem compute_bounds_witness :
    (Difference.compute ⟨0, []⟩ (viewOf 10 []) (viewOf 10 (List.replicate 10 255))).1 = 10
      ∧ (Difference.compute ⟨0, []⟩ (viewOf 10 [])
          (viewOf 10 (List.replicate 10 255))).2.numMarked = 10 := by
  have h := compute_bounds ⟨0, []⟩ (viewOf 10 []) (viewOf 10 (List.replicate 10 255))
    (by decide) (by decide) (by decide) (by decide) (by decide)
  have e : (Difference.compute ⟨0, []⟩ (viewOf 10 [])
      (viewOf 10 (List.replicate 10 255))).1 = 10 := by decide
  refine ⟨e, ?_⟩
  have h1 := h.1
  rw [e] at h1
  exact_mod_cast h1.symm

/-! ## Moving forward and back -/

/-- Under the invariant, moving forward by `n` and back by `n` restores the
whole view: the forward read overwrites no more of the buffer than the
backward read rewrites. -/
theorem onStream_move_back {d : FileDisplay} {s : List Byte} (h : d.OnStream s) (n : Nat) :
    (d.move n).move (-(n : Int)) = d := by
  have h1 := onStream_move h (n : Int)
  have p0 := h.offset_nonneg
  have e1 : (d.move n).offset = d.offset + n := by
    rw [(onStream_move_spec h _).1]; omega
  have e2 : (d.move n).buffer
      = window s (d.offset + n).toNat ++ d.buffer.drop (window s (d.offset + n).toNat).length := by
    rw [move_eq d s n h.contents (onStream_bits h)]
    have : max (d.offset + (n : Int)) 0 = d.offset + n := by omega
    rw [this]
  rw [move_eq (d.move n) s (-(n : Int)) h1.contents (onStream_bits h1)]
  have ho : max ((d.move n).offset + -(n : Int)) 0 = d.offset := by rw [e1]; omega
  rw [ho, e2]
  have hl0 := window_length s d.offset.toNat
  have hl1 := window_length s (d.offset + n).toNat
  have hle : (window s (d.offset + n).toNat).length ≤ (window s d.offset.toNat).length := by
    rw [hl0, hl1]; omega
  have hdrop : (window s (d.offset + n).toNat
        ++ d.buffer.drop (window s (d.offset + n).toNat).length).drop
          (window s d.offset.toNat).length
      = d.buffer.drop (window s d.offset.toNat).length := by
    obtain ⟨k, hk⟩ : ∃ k, (window s d.offset.toNat).length
        = (window s (d.offset + n).toNat).length + k := ⟨_, (Nat.add_sub_cancel' hle).symm⟩
    rw [hk, List.drop_append, List.drop_drop]
  rw [hdrop]
  obtain ⟨bc, f, fn, o, b⟩ := d
  obtain ⟨c, p, e, fl, bd, cnt⟩ := f
  have g1 := h.contents; have g2 := h.valid; have g3 := h.front; have g4 := h.pos
  have g5 := h.count; have g6 := h.eofbit; have g7 := h.failbit; have g8 := h.badbit
  simp only at g1 g2 g3 g4 g5 g6 g7 g8
  simp only [FileDisplay.mk.injEq, ifstream.mk.injEq]
  exact ⟨g2.symm, ⟨g1.symm, g4.symm, g6.symm, g7.symm, g8.symm, g5.symm⟩, rfl, trivial,
    g3.symm⟩

/-- Without a stream, moving forward by `n` and back by `n` restores the
whole view. -/
theorem noStream_move_back {d : FileDisplay} (h : d.NoStream) (n : Nat) :
    (d.move n).move (-(n : Int)) = d := by
  have p0 := h.offset_nonneg
  rw [noStream_move_eq (noStream_move h _) _, noStream_move_eq h _]
  have : max (max (d.offset + (n : Int)) 0 + -(n : Int)) 0 = d.offset := by omega
  simp only [this]

/-- C20: on a view set up by `setFile` and moved any number of times,
`move(N)` followed by `move(-N)`, for `N ≥ 0`, restores the offset, the
valid length and the whole buffer, the bytes beyond the valid length
included. -/
theorem move_forward_back (fs : FileSystem) (name : List Char) (deltas : List Int) (n : Nat) :
    ((((FileDisplay.opened fs name).moves deltas).move n).move (-(n : Int))).offset
        = ((FileDisplay.opened fs name).moves deltas).offset
      ∧ ((((FileDisplay.opened fs name).moves deltas).move n).move (-(n : Int))).bufContents
        = ((FileDisplay.opened fs name).moves deltas).bufContents
      ∧ ((((FileDisplay.opened fs name).moves deltas).move n).move (-(n : Int))).buffer
        = ((FileDisplay.opened fs name).moves deltas).buffer := by
  have e : (((FileDisplay.opened fs name).moves deltas).move n).move (-(n : Int))
      = (FileDisplay.opened fs name).moves deltas := by
    rcases opened_moves_cases fs name deltas with ⟨s, _, h⟩ | h
    · exact onStream_move_back h n
    · exact noStream_move_back h n
  rw [e]
  exact ⟨rfl, rfl, rfl⟩

/-! ## Checked indexing in compute -/

/-- A checked read fails exactly at the indices outside the array. -/
theorem readAt_eq_none (buf : List Byte) (i : Nat) : readAt buf i = none ↔ buf.length ≤ i := by
  unfold readAt
  exact List.getElem?_eq_none_iff

/-- A checked write fails exactly at the indices outside the array. -/
theorem writeAt_eq_none (table : List Byte) (i : Nat) (v : Byte) :
    writeAt table i v = none ↔ table.length ≤ i := by
  unfold writeAt
  by_cases h : i < table.length
  · rw [if_pos h]
    constructor
    · intro hh; exact absurd hh (by simp)
    · intro hh; omega
  · rw [if_neg h]
    exact ⟨fun _ => by omega, fun _ => rfl⟩

theorem readAt_some (buf : List Byte) (i : Nat) (h : i < buf.length) :
    readAt buf i = some (buf.getD i 0) := by
  unfold readAt
  rw [List.getD_eq_getElem?_getD, List.getElem?_eq_getElem h]
  rfl

theorem writeAt_some (table : List Byte) (i : Nat) (v : Byte) (h : i < table.length) :
    writeAt table i v = some (table.set i v) := by
  unfold writeAt
  rw [if_pos h]

/-- Inside the arrays the checked comparison body does what the body of
`compute` does. -/
theorem compareBodyChecked_eq (b1 b2 : List Byte) (i : Nat) (s : List Byte × Int)
    (h1 : i < b1.length) (h2 : i < b2.length) (ht : i < s.1.length) :
    compareBodyChecked b1 b2 i s = some (compareBody b1 b2 i s) := by
  unfold compareBodyChecked compareBody
  rw [readAt_some b1 i h1, readAt_some b2 i h2]
  simp only []
  by_cases hne : b1.getD i 0 ≠ b2.getD i 0
  · rw [if_pos hne, if_pos hne, writeAt_some _ _ _ ht]
    rfl
  · rw [if_neg hne, if_neg hne]

theorem compareBody_length (b1 b2 : List Byte) (i : Nat) (s : List Byte × Int) :
    (compareBody b1 b2 i s).1.length = s.1.length := by
  unfold compareBody
  by_cases hne : b1.getD i 0 ≠ b2.getD i 0
  · rw [if_pos hne]; simp
  · rw [if_neg hne]

theorem tailBodyChecked_eq (i : Nat) (table : List Byte) (h : i < table.length) :
    tailBodyChecked i table = some (tailBody i table) := by
  unfold tailBodyChecked tailBody
  exact writeAt_some _ _ _ h

/-- A checked loop whose body succeeds, and agrees with the unchecked body,
at every index below `size` on every state satisfying an invariant of the
body, succeeds and agrees with the unchecked loop. -/
theorem forLoopChecked_eq {σ : Type} (size : Int) (body : Nat → σ → σ)
    (bodyC : Nat → σ → Option σ) (Inv : σ → Prop)
    (hstep : ∀ (j : Nat) (s : σ), (j : Int) < size → Inv s →
      bodyC j s = some (body j s) ∧ Inv (body j s)) :
    ∀ (fuel i : Nat) (s : σ), Inv s →
      forLoopChecked size bodyC fuel i s = some (forLoop size body fuel i s) := by
  intro fuel
  induction fuel with
  | zero => intro i s _; rfl
  | succ n ih =>
    intro i s hs
    simp only [forLoopChecked, forLoop]
    split
    · rename_i hlt
      obtain ⟨e, hinv⟩ := hstep i s hlt hs
      rw [e, Option.some_bind]
      exact ih (i + 1) (body i s) hinv
    · rfl

/-- C21: for views with valid lengths between 0 and `bufSize` and buffers of
`bufSize` bytes, `compute` with checked accesses never takes the
out-of-range branch: it returns what `compute` returns; a checked access
fails exactly at an index that is `bufSize` or more, so every index used to
read the buffers and to write the table is below `bufSize`. -/
theorem compute_indices_in_range (self : Difference) (A B : FileDisplay)
    (_hA0 : 0 ≤ A.bufContents) (hA1 : A.bufContents ≤ bufSize)
    (_hB0 : 0 ≤ B.bufContents) (hB1 : B.bufContents ≤ bufSize)
    (hlA : A.buffer.length = bufSize) (hlB : B.buffer.length = bufSize) :
    self.computeChecked A B = some (self.compute A B)
      ∧ (∀ i, (readAt A.buffer i = none ↔ (bufSize : Nat) ≤ i)
            ∧ (readAt B.buffer i = none ↔ (bufSize : Nat) ≤ i))
      ∧ (∀ (table : List Byte) (i : Nat) (v : Byte), table.length = bufSize →
            (writeAt table i v = none ↔ (bufSize : Nat) ≤ i)) := by
  refine ⟨?_, fun i => ⟨?_, ?_⟩, fun table i v ht => ?_⟩
  · have hmin1 : min A.bufContents B.bufContents ≤ bufSize := le_trans (min_le_left _ _) hA1
    have hmax1 : max A.bufContents B.bufContents ≤ bufSize := max_le hA1 hB1
    have l1 := forLoopChecked_eq (min A.bufContents B.bufContents)
      (compareBody A.buffer B.buffer) (compareBodyChecked A.buffer B.buffer)
      (fun s => s.1.length = bufSize)
      (by
        intro j s hj hs
        have hjb : j < bufSize := by omega
        exact ⟨compareBodyChecked_eq _ _ j s (by omega) (by omega) (by omega),
          (compareBody_length A.buffer B.buffer j s).trans hs⟩)
      (min A.bufContents B.bufContents).toNat 0 (List.replicate bufSize 0, 0)
      (List.length_replicate _ _)
    have hl := compare_length A.buffer B.buffer (min A.bufContents B.bufContents)
      (min A.bufContents B.bufContents).toNat 0 (List.replicate bufSize 0) 0
    rw [List.length_replicate] at hl
    have l2 := forLoopChecked_eq (max A.bufContents B.bufContents) tailBody tailBodyChecked
      (fun t => t.length = bufSize)
      (by
        intro j t hj ht
        have hjb : j < bufSize := by omega
        exact ⟨tailBodyChecked_eq j t (by omega), by simp [tailBody, ht]⟩)
    simp only [Difference.computeChecked, Difference.compute]
    rw [l1, Option.some_bind]
    split
    · rw [l2 _ _ _ hl]
      rfl
    · split <;> rfl
  · rw [readAt_eq_none, hlA]
  · rw [readAt_eq_none, hlB]
  · rw [writeAt_eq_none, ht]

/-- Witness for C21: five bytes against ten bytes whose first five are the
same; the checked `compute` returns 5 as `compute` does. -/
theorem compute_indices_in_range_witness :
    (Difference.computeChecked ⟨0, []⟩
        (viewOf 5 [1, 2, 3, 4, 5]) (viewOf 10 [1, 2, 3, 4, 5, 6, 7, 8, 9, 10])).map
          (fun r => r.1) = some 5 := by
  rw [(compute_indices_in_range ⟨0, []⟩
      (viewOf 5 [1, 2, 3, 4, 5]) (viewOf 10 [1, 2, 3, 4, 5, 6, 7, 8, 9, 10])
      (by decide) (by decide) (by decide) (by decide) (by decide) (by decide)).1]
  decide

/-- Outside the invariant the checked `compute` does take the out-of-range
branch: with valid lengths of 145 it reads index 144. -/
theorem computeChecked_out_of_range :
    Difference.computeChecked ⟨0, []⟩ (viewOf 145 []) (viewOf 145 []) = none := by
  decide

end VBinDiff
